import Mathlib

/-!
# mcpkit: JSON-RPC 2.0 envelopes and the MCP extension

A shallow embedding of `jsonrpc.go` and `mcp.go`.

* Go `int` codes are `Int`; no arithmetic is performed on them, only comparisons.
* A Go `interface{}` is `Option α`: `none` is the nil interface, `some v` a dynamic value `v`.
  The type `α` of dynamic values is a parameter of the embedding.
* A `json.RawMessage` (a byte slice) is `Option RawMessage`: `none` is the nil slice.
* `json.Marshal` belongs to the Go standard library, not to this repository; the constructors
  take it as the parameter `marshal`, returning either the encoded bytes or the failure `ε`.
* A `(*T, error)` result is `Except (GoError ε) T`; a Go `error` is either a `*Error` of this
  package or the failure handed back by `json.Marshal`.
* The wire form of a message is the ordered list of members of its JSON object. Which
  members are written, and under which key, follows the struct tags of the source; the
  rules of `encoding/json` for `omitempty` (nil interface, nil pointer, zero-length slice
  or string) and for decoding (`null` gives a nil interface, a number gives a float64) are
  those of the standard library, and its compaction and generic decoding of JSON text are
  the parameters `compact` and `unmarshal`.
* Go strings are Lean strings, so only valid Unicode text is covered.
-/

namespace Mcpkit

/-- The content of a `json.RawMessage`: the encoded JSON text. -/
abbrev RawMessage := String

/-- Version is the JSON-RPC protocol version (`jsonrpc.go`, line 8). -/
abbrev Version : String := "2.0"

/-- Error represents a JSON-RPC error object (`jsonrpc.go`, lines 87-91). -/
structure Error where
  Code : Int
  Message : String
  Data : Option RawMessage
deriving DecidableEq, Repr

/-- A value of the Go interface `error` as the constructors return it: a `*Error` of this
package, or the failure returned by `json.Marshal`. -/
inductive GoError (ε : Type) where
  | rpc (e : Error)
  | marshal (cause : ε)
deriving DecidableEq, Repr

/-- Request represents a JSON-RPC request object (`jsonrpc.go`, lines 11-16). -/
structure Request (α : Type) where
  JSONRPC : String
  Method : String
  Params : Option RawMessage
  ID : Option α
deriving DecidableEq, Repr

/-- Response represents a JSON-RPC response object (`jsonrpc.go`, lines 52-57). -/
structure Response (α : Type) where
  JSONRPC : String
  Result : Option RawMessage
  Error : Option Error
  ID : Option α
deriving DecidableEq, Repr

/-- Standard JSON-RPC 2.0 error code (`jsonrpc.go`, line 127). -/
abbrev ErrParse : Int := -32700

/-- Standard JSON-RPC 2.0 error code (`jsonrpc.go`, line 128). -/
abbrev ErrInvalidRequest : Int := -32600

/-- Standard JSON-RPC 2.0 error code (`jsonrpc.go`, line 129). -/
abbrev ErrMethodNotFound : Int := -32601

/-- Standard JSON-RPC 2.0 error code (`jsonrpc.go`, line 130). -/
abbrev ErrInvalidParams : Int := -32602

/-- Standard JSON-RPC 2.0 error code (`jsonrpc.go`, line 131). -/
abbrev ErrInternal : Int := -32603

/-- First code of the server error range (`jsonrpc.go`, line 133). -/
abbrev ErrServerErrorStart : Int := -32099

/-- Last code of the server error range (`jsonrpc.go`, line 134). -/
abbrev ErrServerErrorEnd : Int := -32000

/-- ErrorMessage returns the standard message for a given error code
(`jsonrpc.go`, lines 138-156). The `switch` tries its cases in order. -/
def ErrorMessage (code : Int) : String :=
  if code = ErrParse then "Parse error"
  else if code = ErrInvalidRequest then "Invalid Request"
  else if code = ErrMethodNotFound then "Method not found"
  else if code = ErrInvalidParams then "Invalid params"
  else if code = ErrInternal then "Internal error"
  else if code ≥ ErrServerErrorStart ∧ code ≤ ErrServerErrorEnd then "Server error"
  else "Unknown error"

/-- StdError returns a new Error with standard error message (`jsonrpc.go`, lines 99-104).
The field `Data` is not set by the composite literal, so it keeps its zero value, nil. -/
def StdError (code : Int) : Error :=
  { Code := code, Message := ErrorMessage code, Data := none }

/-- NewError creates a custom Error with specified code, message, and optional data
(`jsonrpc.go`, lines 107-122). -/
def NewError {α ε : Type} (marshal : α → Except ε RawMessage)
    (code : Int) (message : String) (data : Option α) : Except (GoError ε) Error :=
  match data with
  | none => .ok { Code := code, Message := message, Data := none }
  | some v =>
    match marshal v with
    | .error err => .error (.marshal err)
    | .ok bytes => .ok { Code := code, Message := message, Data := some bytes }

/-- NewRequest creates a new Request with the specified method, parameters, and ID
(`jsonrpc.go`, lines 19-39). -/
def NewRequest {α ε : Type} (marshal : α → Except ε RawMessage)
    (method : String) (params : Option α) (id : Option α) :
    Except (GoError ε) (Request α) :=
  if method = "" then
    .error (.rpc (StdError ErrInvalidRequest))
  else
    match params with
    | none => .ok { JSONRPC := Version, Method := method, Params := none, ID := id }
    | some v =>
      match marshal v with
      | .error err => .error (.marshal err)
      | .ok data => .ok { JSONRPC := Version, Method := method, Params := some data, ID := id }

/-- NewNotification creates a new notification Request with the specified method and
parameters (`jsonrpc.go`, lines 42-44). -/
def NewNotification {α ε : Type} (marshal : α → Except ε RawMessage)
    (method : String) (params : Option α) : Except (GoError ε) (Request α) :=
  NewRequest marshal method params none

/-- IsNotification returns true if the request is a notification (has no ID)
(`jsonrpc.go`, lines 47-49). -/
def Request.IsNotification {α : Type} (r : Request α) : Bool :=
  r.ID.isNone

/-- NewResponse creates a new Response with the specified result and ID
(`jsonrpc.go`, lines 60-75). -/
def NewResponse {α ε : Type} (marshal : α → Except ε RawMessage)
    (result : Option α) (id : Option α) : Except (GoError ε) (Response α) :=
  match result with
  | none => .ok { JSONRPC := Version, Result := none, Error := none, ID := id }
  | some v =>
    match marshal v with
    | .error err => .error (.marshal err)
    | .ok data => .ok { JSONRPC := Version, Result := some data, Error := none, ID := id }

/-- NewErrorResponse creates a new Response with the specified error and ID
(`jsonrpc.go`, lines 78-84). The argument is a `*Error`, which may be nil. -/
def NewErrorResponse {α : Type} (err : Option Error) (id : Option α) : Response α :=
  { JSONRPC := Version, Result := none, Error := err, ID := id }

/-- MCPAction defines the standard actions for MCP: a Go string type (`mcp.go`, line 10). -/
abbrev MCPAction := String

/-- MCPStatus defines the status codes for MCP responses: a Go string type
(`mcp.go`, line 21). -/
abbrev MCPStatus := String

/-- Standard MCP action (`mcp.go`, line 14). -/
abbrev MCPActionSubmit : MCPAction := "submit"

/-- Standard MCP action (`mcp.go`, line 15). -/
abbrev MCPActionStream : MCPAction := "stream"

/-- Standard MCP action (`mcp.go`, line 16). -/
abbrev MCPActionExecute : MCPAction := "execute"

/-- Standard MCP action (`mcp.go`, line 17). -/
abbrev MCPActionCancel : MCPAction := "cancel"

/-- Standard MCP status value (`mcp.go`, line 25). -/
abbrev MCPStatusSuccess : MCPStatus := "success"

/-- Standard MCP status value (`mcp.go`, line 26). -/
abbrev MCPStatusError : MCPStatus := "error"

/-- Standard MCP status value (`mcp.go`, line 27). -/
abbrev MCPStatusPartial : MCPStatus := "partial"

/-- MCPRequest extends the JSON-RPC Request with MCP-specific fields
(`mcp.go`, lines 31-39). -/
structure MCPRequest (α : Type) where
  JSONRPC : String
  Method : String
  Action : MCPAction
  Params : Option RawMessage
  Context : Option α
  Tool : String
  ID : Option α
deriving DecidableEq, Repr

/-- MCPResponse extends the JSON-RPC Response with MCP-specific fields
(`mcp.go`, lines 42-49). -/
structure MCPResponse (α : Type) where
  JSONRPC : String
  Status : MCPStatus
  Data : Option RawMessage
  Error : Option Error
  Context : Option α
  ID : Option α
deriving DecidableEq, Repr

/-- NewMCPRequest creates a new MCPRequest with the specified parameters
(`mcp.go`, lines 52-71). -/
def NewMCPRequest {α ε : Type} (marshal : α → Except ε RawMessage)
    (action : MCPAction) (params : Option α) (context : Option α) (tool : String)
    (id : Option α) : Except (GoError ε) (MCPRequest α) :=
  match params with
  | none =>
    .ok { JSONRPC := Version, Method := action, Action := action, Params := none,
          Context := context, Tool := tool, ID := id }
  | some v =>
    match marshal v with
    | .error err => .error (.marshal err)
    | .ok data =>
      .ok { JSONRPC := Version, Method := action, Action := action, Params := some data,
            Context := context, Tool := tool, ID := id }

/-- NewMCPResponse creates a new MCPResponse with the specified parameters
(`mcp.go`, lines 74-91). -/
def NewMCPResponse {α ε : Type} (marshal : α → Except ε RawMessage)
    (status : MCPStatus) (data : Option α) (context : Option α) (id : Option α) :
    Except (GoError ε) (MCPResponse α) :=
  match data with
  | none =>
    .ok { JSONRPC := Version, Status := status, Data := none, Error := none,
          Context := context, ID := id }
  | some v =>
    match marshal v with
    | .error err => .error (.marshal err)
    | .ok bytes =>
      .ok { JSONRPC := Version, Status := status, Data := some bytes, Error := none,
            Context := context, ID := id }

/-- NewMCPErrorResponse creates a new MCPResponse with an error (`mcp.go`, lines 94-102). -/
def NewMCPErrorResponse {α : Type} (err : Option Error) (context : Option α)
    (id : Option α) : MCPResponse α :=
  { JSONRPC := Version, Status := MCPStatusError, Data := none, Error := err,
    Context := context, ID := id }

/-- MCP-specific error code (`mcp.go`, line 106). -/
abbrev ErrMCPActionNotSupported : Int := -33001

/-- MCP-specific error code (`mcp.go`, line 107). -/
abbrev ErrMCPToolNotAvailable : Int := -33002

/-- MCP-specific error code (`mcp.go`, line 108). -/
abbrev ErrMCPContextInvalid : Int := -33003

/-- MCP-specific error code (`mcp.go`, line 109). -/
abbrev ErrMCPExecutionFailed : Int := -33004

/-- MCPErrorMessage returns the MCP-specific error message for a given error code
(`mcp.go`, lines 113-126). -/
def MCPErrorMessage (code : Int) : String :=
  if code = ErrMCPActionNotSupported then "Action not supported"
  else if code = ErrMCPToolNotAvailable then "Tool not available"
  else if code = ErrMCPContextInvalid then "Context invalid"
  else if code = ErrMCPExecutionFailed then "Execution failed"
  else ErrorMessage code

/-- A small universe of Go dynamic values at which the constructors are evaluated:
an `int`, an `[]int`, a channel, which `json.Marshal` refuses to encode, and a nil pointer
`(*int)(nil)`, which is a value different from the nil interface. -/
inductive Dyn where
  | int (n : Int)
  | ints (xs : List Int)
  | chan
  | nilptr
deriving DecidableEq, Repr

/-- The outcome of `json.Marshal` on the values of `Dyn`: the decimal text of an integer,
the bracketed comma-separated elements of a slice, an unsupported-type failure for a
channel, and `null` for a nil pointer. -/
def Dyn.marshal : Dyn → Except String RawMessage
  | .int n => .ok (toString n)
  | .ints xs => .ok ("[" ++ ",".intercalate (xs.map toString) ++ "]")
  | .chan => .error "json: unsupported type: chan int"
  | .nilptr => .ok "null"

/-- A member value of the JSON object that `encoding/json` writes for a struct: `null`, a
Go string written as a JSON string, an integer, JSON text that is already encoded (a
`json.RawMessage`, or a dynamic value put through the encoder), or a nested object. -/
inductive JValue where
  | null
  | string (s : String)
  | number (n : Int)
  | raw (text : RawMessage)
  | object (members : List (String × JValue))

/-- A struct field of type `json.RawMessage` tagged `omitempty`, as `encoding/json` treats
it: the field is left out when the slice has length 0 (nil or empty); otherwise the bytes
are validated and compacted by the encoder (`compact`, standard library, a parameter), whose
failure is the failure of the whole encoding. -/
def omitemptyRaw {ε : Type} (compact : RawMessage → Except ε RawMessage)
    (name : String) (m : Option RawMessage) : Except ε (List (String × JValue)) :=
  match m with
  | none => .ok []
  | some b =>
    if b = "" then .ok []
    else
      match compact b with
      | .error err => .error err
      | .ok c => .ok [(name, .raw c)]

/-- A struct field of type `interface{}` tagged `omitempty`, as `encoding/json` treats it:
the field is left out when the interface is nil; otherwise the dynamic value is encoded as
`json.Marshal` encodes it, and a failure there is the failure of the whole encoding. -/
def omitemptyIface {α ε : Type} (marshal : α → Except ε RawMessage)
    (name : String) (v : Option α) : Except ε (List (String × JValue)) :=
  match v with
  | none => .ok []
  | some x =>
    match marshal x with
    | .error err => .error err
    | .ok t => .ok [(name, .raw t)]

/-- The members of the JSON object `json.Marshal` writes for a Request, in the order of the
struct fields and by their tags (`jsonrpc.go`, lines 12-15): `jsonrpc` and `method` are
always written, `params` and `id` are tagged `omitempty`. -/
def Request.encode {α ε : Type} (marshal : α → Except ε RawMessage)
    (compact : RawMessage → Except ε RawMessage) (r : Request α) :
    Except ε (List (String × JValue)) :=
  match omitemptyRaw compact "params" r.Params with
  | .error err => .error err
  | .ok ps =>
    match omitemptyIface marshal "id" r.ID with
    | .error err => .error err
    | .ok ids =>
      .ok ([("jsonrpc", .string r.JSONRPC), ("method", .string r.Method)] ++ ps ++ ids)

/-- A struct field of type `interface{}` without `omitempty`, as `encoding/json` treats it:
the member is always written, `null` for the nil interface and the encoding of the dynamic
value otherwise. -/
def ifaceValue {α ε : Type} (marshal : α → Except ε RawMessage)
    (v : Option α) : Except ε JValue :=
  match v with
  | none => .ok .null
  | some x =>
    match marshal x with
    | .error err => .error err
    | .ok t => .ok (.raw t)

/-- A struct field of type `string` tagged `omitempty`: left out when the string is empty. -/
def omitemptyString (name : String) (s : String) : List (String × JValue) :=
  if s = "" then [] else [(name, .string s)]

/-- The members of the JSON object written for an Error, by its struct tags
(`jsonrpc.go`, lines 88-90): `code` and `message` always, `data` tagged `omitempty`. -/
def Error.encode {ε : Type} (compact : RawMessage → Except ε RawMessage) (e : Error) :
    Except ε (List (String × JValue)) :=
  match omitemptyRaw compact "data" e.Data with
  | .error err => .error err
  | .ok ds => .ok ([("code", .number e.Code), ("message", .string e.Message)] ++ ds)

/-- A struct field of type `*Error` tagged `omitempty`: left out when the pointer is nil,
otherwise written as the object of the Error it points to. -/
def omitemptyError {ε : Type} (compact : RawMessage → Except ε RawMessage)
    (name : String) (e : Option Error) : Except ε (List (String × JValue)) :=
  match e with
  | none => .ok []
  | some x =>
    match x.encode compact with
    | .error err => .error err
    | .ok ms => .ok [(name, .object ms)]

/-- The members of the JSON object `json.Marshal` writes for a Response
(`jsonrpc.go`, lines 53-56): `jsonrpc` and `id` always, `result` and `error` tagged
`omitempty`. -/
def Response.encode {α ε : Type} (marshal : α → Except ε RawMessage)
    (compact : RawMessage → Except ε RawMessage) (r : Response α) :
    Except ε (List (String × JValue)) :=
  match omitemptyRaw compact "result" r.Result with
  | .error err => .error err
  | .ok rs =>
    match omitemptyError compact "error" r.Error with
    | .error err => .error err
    | .ok es =>
      match ifaceValue marshal r.ID with
      | .error err => .error err
      | .ok idv => .ok ([("jsonrpc", .string r.JSONRPC)] ++ rs ++ es ++ [("id", idv)])

/-- The members of the JSON object `json.Marshal` writes for an MCPRequest
(`mcp.go`, lines 32-38): `jsonrpc`, `method` and `action` always, `params`, `context`,
`tool` and `id` tagged `omitempty`. -/
def MCPRequest.encode {α ε : Type} (marshal : α → Except ε RawMessage)
    (compact : RawMessage → Except ε RawMessage) (r : MCPRequest α) :
    Except ε (List (String × JValue)) :=
  match omitemptyRaw compact "params" r.Params with
  | .error err => .error err
  | .ok ps =>
    match omitemptyIface marshal "context" r.Context with
    | .error err => .error err
    | .ok cs =>
      match omitemptyIface marshal "id" r.ID with
      | .error err => .error err
      | .ok ids =>
        .ok ([("jsonrpc", .string r.JSONRPC), ("method", .string r.Method),
              ("action", .string r.Action)] ++ ps ++ cs ++ omitemptyString "tool" r.Tool
              ++ ids)

/-- The members of the JSON object `json.Marshal` writes for an MCPResponse
(`mcp.go`, lines 43-48): `jsonrpc`, `status` and `id` always, `data`, `error` and `context`
tagged `omitempty`. -/
def MCPResponse.encode {α ε : Type} (marshal : α → Except ε RawMessage)
    (compact : RawMessage → Except ε RawMessage) (r : MCPResponse α) :
    Except ε (List (String × JValue)) :=
  match omitemptyRaw compact "data" r.Data with
  | .error err => .error err
  | .ok ds =>
    match omitemptyError compact "error" r.Error with
    | .error err => .error err
    | .ok es =>
      match omitemptyIface marshal "context" r.Context with
      | .error err => .error err
      | .ok cs =>
        match ifaceValue marshal r.ID with
        | .error err => .error err
        | .ok idv =>
          .ok ([("jsonrpc", .string r.JSONRPC), ("status", .string r.Status)] ++ ds ++ es
                ++ cs ++ [("id", idv)])

/-- The compaction step of the encoder on the texts `Dyn.marshal` produces: they are
non-empty, valid and already compact, so they are returned as they are; the empty text is
rejected. -/
def Dyn.compact (b : RawMessage) : Except String RawMessage :=
  if b = "" then .error "unexpected end of JSON input" else .ok b

/-- What `json.Unmarshal` stores in a struct field of type `string` from the members of a
decoded object: the zero value when the key is missing or its value is `null`, the string
when the value is a JSON string; any other value is a decoding failure, `none`. The decoders
below read objects written by the encoders above, in which every key occurs once. -/
def fieldString (ms : List (String × JValue)) (name : String) : Option String :=
  match ms.lookup name with
  | none => some ""
  | some .null => some ""
  | some (.string s) => some s
  | some _ => none

/-- What `json.Unmarshal` stores in a struct field of type `int`: the zero value when the
key is missing or `null`, the integer when the value is an integer number. -/
def fieldInt (ms : List (String × JValue)) (name : String) : Option Int :=
  match ms.lookup name with
  | none => some 0
  | some .null => some 0
  | some (.number n) => some n
  | some _ => none

/-- What `json.Unmarshal` stores in a struct field of type `json.RawMessage`: nil when the
key is missing, otherwise the text of the value, which is `null` for a null value. The
encoders write such a field as raw text only. -/
def fieldRaw (ms : List (String × JValue)) (name : String) : Option (Option RawMessage) :=
  match ms.lookup name with
  | none => some none
  | some .null => some (some "null")
  | some (.raw t) => some (some t)
  | some _ => none

/-- What `json.Unmarshal` stores in a struct field of type `interface{}`: nil when the key
is missing or its value is `null`, otherwise the dynamic value decoded from the text
(`unmarshal`, standard library, a parameter: the decoding of a JSON text other than `null`
into an `interface{}`, `none` when it fails). The encoders write such a field as `null` or
raw text only. -/
def fieldIface {β : Type} (unmarshal : RawMessage → Option β)
    (ms : List (String × JValue)) (name : String) : Option (Option β) :=
  match ms.lookup name with
  | none => some none
  | some .null => some none
  | some (.raw t) => if t = "null" then some none else (unmarshal t).map some
  | some _ => none

/-- The Error decoded from the members of its object, by the struct tags
(`jsonrpc.go`, lines 88-90). -/
def Error.decode (ms : List (String × JValue)) : Option Error :=
  match fieldInt ms "code", fieldString ms "message", fieldRaw ms "data" with
  | some code, some message, some data => some { Code := code, Message := message, Data := data }
  | _, _, _ => none

/-- What `json.Unmarshal` stores in a struct field of type `*Error`: nil when the key is
missing or `null`, a pointer to the decoded Error when the value is an object. -/
def fieldError (ms : List (String × JValue)) (name : String) : Option (Option Error) :=
  match ms.lookup name with
  | none => some none
  | some .null => some none
  | some (.object es) => (Error.decode es).map some
  | some _ => none

/-- The Request that `json.Unmarshal` builds from the members of a JSON object, starting
from the zero Request, by the struct tags (`jsonrpc.go`, lines 12-15). -/
def Request.decode {β : Type} (unmarshal : RawMessage → Option β)
    (ms : List (String × JValue)) : Option (Request β) :=
  match fieldString ms "jsonrpc", fieldString ms "method", fieldRaw ms "params",
    fieldIface unmarshal ms "id" with
  | some jsonrpc, some method, some params, some id =>
    some { JSONRPC := jsonrpc, Method := method, Params := params, ID := id }
  | _, _, _, _ => none

/-- The Response that `json.Unmarshal` builds from the members of a JSON object, by the
struct tags (`jsonrpc.go`, lines 53-56). -/
def Response.decode {β : Type} (unmarshal : RawMessage → Option β)
    (ms : List (String × JValue)) : Option (Response β) :=
  match fieldString ms "jsonrpc", fieldRaw ms "result", fieldError ms "error",
    fieldIface unmarshal ms "id" with
  | some jsonrpc, some result, some err, some id =>
    some { JSONRPC := jsonrpc, Result := result, Error := err, ID := id }
  | _, _, _, _ => none

/-- The MCPRequest that `json.Unmarshal` builds from the members of a JSON object, by the
struct tags (`mcp.go`, lines 32-38). -/
def MCPRequest.decode {β : Type} (unmarshal : RawMessage → Option β)
    (ms : List (String × JValue)) : Option (MCPRequest β) :=
  match fieldString ms "jsonrpc", fieldString ms "method", fieldString ms "action",
    fieldRaw ms "params", fieldIface unmarshal ms "context", fieldString ms "tool",
    fieldIface unmarshal ms "id" with
  | some jsonrpc, some method, some action, some params, some context, some tool, some id =>
    some { JSONRPC := jsonrpc, Method := method, Action := action, Params := params,
           Context := context, Tool := tool, ID := id }
  | _, _, _, _, _, _, _ => none

/-- The MCPResponse that `json.Unmarshal` builds from the members of a JSON object, by the
struct tags (`mcp.go`, lines 43-48). -/
def MCPResponse.decode {β : Type} (unmarshal : RawMessage → Option β)
    (ms : List (String × JValue)) : Option (MCPResponse β) :=
  match fieldString ms "jsonrpc", fieldString ms "status", fieldRaw ms "data",
    fieldError ms "error", fieldIface unmarshal ms "context", fieldIface unmarshal ms "id" with
  | some jsonrpc, some status, some data, some err, some context, some id =>
    some { JSONRPC := jsonrpc, Status := status, Data := data, Error := err,
           Context := context, ID := id }
  | _, _, _, _, _, _ => none

/-- Number of binary digits of `a`, by repeated halving; `fuel` bounds the number of
halvings, and 64 is enough for the 64-bit integers of Go. -/
def bitLength : Nat → Nat → Nat
  | 0, _ => 0
  | fuel + 1, a => if a = 0 then 0 else 1 + bitLength fuel (a / 2)

/-- The value of the float64 nearest to the natural number `a` (below 2^64), ties going to
the even significand: the bits beyond the 53 of the significand are rounded away. -/
def roundFloat64 (a : Nat) : Nat :=
  if 2 * (a % 2 ^ (bitLength 64 a - 53)) > 2 ^ (bitLength 64 a - 53) ∨
      (2 * (a % 2 ^ (bitLength 64 a - 53)) = 2 ^ (bitLength 64 a - 53) ∧
        (a / 2 ^ (bitLength 64 a - 53)) % 2 = 1)
  then (a / 2 ^ (bitLength 64 a - 53) + 1) * 2 ^ (bitLength 64 a - 53)
  else (a / 2 ^ (bitLength 64 a - 53)) * 2 ^ (bitLength 64 a - 53)

/-- The value of the float64 nearest to a 64-bit integer `n`: what `json.Unmarshal` stores
in an `interface{}` for the JSON number written for `n`. -/
def float64OfInt (n : Int) : Int :=
  if n < 0 then -((roundFloat64 n.natAbs : Nat) : Int) else ((roundFloat64 n.natAbs : Nat) : Int)

/-- The natural number written by a list of decimal digits, `none` when a character is not
a digit; `acc` is the value of the digits already read. -/
def digitsValue : List Char → Nat → Option Nat
  | [], acc => some acc
  | c :: cs, acc =>
    if c.isDigit then digitsValue cs (10 * acc + (c.toNat - 48)) else none

/-- The integer written by a decimal numeral with an optional minus sign. -/
def parseInt : List Char → Option Int
  | [] => none
  | c :: cs =>
    if c = '-' then
      (if cs = [] then none else (digitsValue cs 0).map (fun n => -(n : Int)))
    else (digitsValue (c :: cs) 0).map (fun n => (n : Int))

/-- What `json.Unmarshal` stores in an `interface{}` for the texts `Dyn.marshal` produces:
a float64, here always of integer value, for a number, and the value of any other JSON
text, kept as that text. -/
inductive Decoded where
  | float64 (value : Int)
  | other (text : RawMessage)
deriving DecidableEq, Repr

/-- The decoding of a JSON text other than `null` into an `interface{}`, on the texts
`Dyn.marshal` produces: an integer numeral becomes the nearest float64. The empty text and
`null`, which is not a dynamic value, are not decoded here. -/
def Dyn.unmarshal (t : RawMessage) : Option Decoded :=
  if t = "" ∨ t = "null" then none
  else
    match parseInt t.data with
    | some n => some (.float64 (float64OfInt n))
    | none => some (.other t)

/-- C1: NewRequest called with the empty method returns no request and fails with exactly
StdError(ErrInvalidRequest), the error with code -32600, message "Invalid Request" and no
data, for every params and identifier and whatever `json.Marshal` would do with params. -/
theorem NewRequest_empty_method {α ε : Type} (marshal : α → Except ε RawMessage)
    (params id : Option α) :
    NewRequest marshal "" params id = .error (.rpc (StdError ErrInvalidRequest)) ∧
      StdError ErrInvalidRequest =
        { Code := -32600, Message := "Invalid Request", Data := none } := by
  constructor
  · simp [NewRequest]
  · simp [StdError, ErrorMessage]

/-- C1 at a concrete input: the empty method with a channel as params, which cannot be
serialised, still fails with the Invalid-Request error. -/
theorem NewRequest_empty_method_witness :
    NewRequest Dyn.marshal "" (some Dyn.chan) (some (Dyn.int 1)) =
      .error (.rpc { Code := -32600, Message := "Invalid Request", Data := none }) ∧
    Dyn.marshal Dyn.chan = .error "json: unsupported type: chan int" :=
  ⟨(NewRequest_empty_method Dyn.marshal (some Dyn.chan) (some (Dyn.int 1))).2 ▸
      (NewRequest_empty_method Dyn.marshal (some Dyn.chan) (some (Dyn.int 1))).1, rfl⟩

/-- C2: for a non-empty method, any identifier and params that are absent or serialisable,
NewRequest succeeds with JSONRPC "2.0", the given method, the identifier unchanged, and
Params absent when params is absent and the serialisation of params otherwise. -/
theorem NewRequest_ok {α ε : Type} (marshal : α → Except ε RawMessage)
    (method : String) (params id : Option α) (hm : method ≠ "")
    (hp : ∀ v, params = some v → ∃ data, marshal v = .ok data) :
    ∃ r, NewRequest marshal method params id = .ok r ∧
      r.JSONRPC = "2.0" ∧ r.Method = method ∧ r.ID = id ∧
      (params = none → r.Params = none) ∧
      (∀ v data, params = some v → marshal v = .ok data → r.Params = some data) := by
  cases params with
  | none =>
    refine ⟨{ JSONRPC := Version, Method := method, Params := none, ID := id },
      by simp [NewRequest, hm], rfl, rfl, rfl, fun _ => rfl, ?_⟩
    intro w d hw
    cases hw
  | some v =>
    obtain ⟨data, hd⟩ := hp v rfl
    refine ⟨{ JSONRPC := Version, Method := method, Params := some data, ID := id },
      by simp [NewRequest, hm, hd], rfl, rfl, rfl, fun h => (by cases h), ?_⟩
    intro w d hw hwd
    cases hw
    rw [hd] at hwd
    cases hwd
    rfl

/-- C2 at the example of the specification: method "sum", params [1,2], identifier 7. -/
theorem NewRequest_ok_witness :
    ∃ r, NewRequest Dyn.marshal "sum" (some (Dyn.ints [1, 2])) (some (Dyn.int 7)) = .ok r ∧
      r.JSONRPC = "2.0" ∧ r.Method = "sum" ∧ r.ID = some (Dyn.int 7) ∧
      r.Params = some "[1,2]" := by
  obtain ⟨r, h, h1, h2, h3, _, h5⟩ :=
    NewRequest_ok Dyn.marshal "sum" (some (Dyn.ints [1, 2])) (some (Dyn.int 7)) (by decide)
      (fun v hv => by cases hv; exact ⟨_, rfl⟩)
  exact ⟨r, h, h1, h2, h3, h5 (Dyn.ints [1, 2]) "[1,2]" rfl rfl⟩

/-- C3: for a non-empty method, serialisable (or absent) params and any identifier,
NewRequest succeeds and IsNotification of the result is false if and only if an identifier
was supplied; and IsNotification of any Request is true exactly when its ID is absent. -/
theorem NewRequest_isNotification {α ε : Type} (marshal : α → Except ε RawMessage)
    (method : String) (params id : Option α) (hm : method ≠ "")
    (hp : ∀ v, params = some v → ∃ data, marshal v = .ok data) :
    (∃ r, NewRequest marshal method params id = .ok r ∧
      (r.IsNotification = false ↔ id ≠ none)) ∧
    (∀ r : Request α, r.IsNotification = true ↔ r.ID = none) := by
  constructor
  · cases params with
    | none =>
      refine ⟨{ JSONRPC := Version, Method := method, Params := none, ID := id },
        by simp [NewRequest, hm], ?_⟩
      cases id <;> simp [Request.IsNotification]
    | some v =>
      obtain ⟨data, hd⟩ := hp v rfl
      refine ⟨{ JSONRPC := Version, Method := method, Params := some data, ID := id },
        by simp [NewRequest, hm, hd], ?_⟩
      cases id <;> simp [Request.IsNotification]
  · intro r
    simp [Request.IsNotification]

/-- C3 at concrete inputs: with identifier 7 the request built for "sum" and [1,2] is not a
notification. -/
theorem NewRequest_isNotification_witness :
    ∃ r, NewRequest Dyn.marshal "sum" (some (Dyn.ints [1, 2])) (some (Dyn.int 7)) = .ok r ∧
      r.IsNotification = false := by
  obtain ⟨r, h, hn⟩ :=
    (NewRequest_isNotification Dyn.marshal "sum" (some (Dyn.ints [1, 2])) (some (Dyn.int 7))
      (by decide) (fun v hv => by cases hv; exact ⟨_, rfl⟩)).1
  exact ⟨r, h, hn.2 (by simp)⟩

/-- C4: NewNotification(m, p) returns exactly what NewRequest(m, p, nil) returns, the same
request or the same failure; for a non-empty m and serialisable (or absent) p the result has
an absent ID and IsNotification is true. -/
theorem NewNotification_eq_NewRequest {α ε : Type} (marshal : α → Except ε RawMessage)
    (m : String) (p : Option α) :
    NewNotification marshal m p = NewRequest marshal m p none ∧
    (m ≠ "" → (∀ v, p = some v → ∃ data, marshal v = .ok data) →
      ∃ r, NewNotification marshal m p = .ok r ∧ r.ID = none ∧ r.IsNotification = true) := by
  refine ⟨rfl, fun hm hp => ?_⟩
  cases p with
  | none =>
    exact ⟨{ JSONRPC := Version, Method := m, Params := none, ID := none },
      by simp [NewNotification, NewRequest, hm], rfl, rfl⟩
  | some v =>
    obtain ⟨data, hd⟩ := hp v rfl
    exact ⟨{ JSONRPC := Version, Method := m, Params := some data, ID := none },
      by simp [NewNotification, NewRequest, hm, hd], rfl, rfl⟩

/-- C4 at concrete inputs: the notification "tick" with params [1,2] is built, has no ID and
is a notification. -/
theorem NewNotification_eq_NewRequest_witness :
    ∃ r, NewNotification Dyn.marshal "tick" (some (Dyn.ints [1, 2])) = .ok r ∧
      r.ID = none ∧ r.IsNotification = true :=
  (NewNotification_eq_NewRequest Dyn.marshal "tick" (some (Dyn.ints [1, 2]))).2 (by decide)
    (fun v hv => by cases hv; exact ⟨_, rfl⟩)

/-- C5: ErrorMessage maps the five named codes to their exact messages. -/
theorem ErrorMessage_named :
    ErrorMessage (-32700) = "Parse error" ∧
    ErrorMessage (-32600) = "Invalid Request" ∧
    ErrorMessage (-32601) = "Method not found" ∧
    ErrorMessage (-32602) = "Invalid params" ∧
    ErrorMessage (-32603) = "Internal error" := by
  refine ⟨?_, ?_, ?_, ?_, ?_⟩ <;> simp [ErrorMessage]

/-- C6: every code between -32099 and -32000, both boundaries included, has the message
"Server error". -/
theorem ErrorMessage_server_range (code : Int) (hlo : -32099 ≤ code) (hhi : code ≤ -32000) :
    ErrorMessage code = "Server error" := by
  have h1 : code ≠ -32700 := by omega
  have h2 : code ≠ -32600 := by omega
  have h3 : code ≠ -32601 := by omega
  have h4 : code ≠ -32602 := by omega
  have h5 : code ≠ -32603 := by omega
  simp [ErrorMessage, h1, h2, h3, h4, h5, hlo, hhi]

/-- C6 at the two boundaries and in the middle of the range. -/
theorem ErrorMessage_server_range_witness :
    ErrorMessage (-32099) = "Server error" ∧ ErrorMessage (-32050) = "Server error" ∧
      ErrorMessage (-32000) = "Server error" :=
  ⟨ErrorMessage_server_range (-32099) (by decide) (by decide),
    ErrorMessage_server_range (-32050) (by decide) (by decide),
    ErrorMessage_server_range (-32000) (by decide) (by decide)⟩

/-- C7: ErrorMessage(code) is "Unknown error" if and only if code is none of the five named
codes and lies outside the interval from -32099 to -32000; so -1, -32100 and -31999 map to
"Unknown error". -/
theorem ErrorMessage_unknown_iff (code : Int) :
    (ErrorMessage code = "Unknown error" ↔
      (code ≠ -32700 ∧ code ≠ -32600 ∧ code ≠ -32601 ∧ code ≠ -32602 ∧ code ≠ -32603 ∧
        ¬ (-32099 ≤ code ∧ code ≤ -32000))) ∧
    ErrorMessage (-1) = "Unknown error" ∧ ErrorMessage (-32100) = "Unknown error" ∧
      ErrorMessage (-31999) = "Unknown error" := by
  refine ⟨?_, by simp [ErrorMessage], by simp [ErrorMessage], by simp [ErrorMessage]⟩
  unfold ErrorMessage
  split_ifs with h1 h2 h3 h4 h5 h6
  · simp [h1]
  · simp [h2]
  · simp [h3]
  · simp [h4]
  · simp [h5]
  · have : ("Server error" : String) ≠ "Unknown error" := by decide
    simp [this]
    intro _ _ _ _ _
    exact ⟨h6.1, h6.2⟩
  · simp only [true_iff]
    refine ⟨h1, h2, h3, h4, h5, ?_⟩
    intro h
    exact h6 ⟨h.1, h.2⟩

/-- C8: StdError(code) always returns an Error whose Code is code, whose Message is
ErrorMessage(code) and whose Data is absent. -/
theorem StdError_fields (code : Int) :
    (StdError code).Code = code ∧ (StdError code).Message = ErrorMessage code ∧
      (StdError code).Data = none :=
  ⟨rfl, rfl, rfl⟩

/-- C9: MCPErrorMessage returns the four MCP-specific messages for the four MCP codes. -/
theorem MCPErrorMessage_mcp_codes :
    MCPErrorMessage (-33001) = "Action not supported" ∧
    MCPErrorMessage (-33002) = "Tool not available" ∧
    MCPErrorMessage (-33003) = "Context invalid" ∧
    MCPErrorMessage (-33004) = "Execution failed" := by
  refine ⟨?_, ?_, ?_, ?_⟩ <;> simp [MCPErrorMessage]

/-- C10: for every code other than the four MCP codes, MCPErrorMessage(code) equals
ErrorMessage(code); so -32600 gives "Invalid Request", every code from -32099 to -32000 gives
"Server error" and -1 gives "Unknown error". -/
theorem MCPErrorMessage_delegates (code : Int) (h1 : code ≠ -33001) (h2 : code ≠ -33002)
    (h3 : code ≠ -33003) (h4 : code ≠ -33004) :
    MCPErrorMessage code = ErrorMessage code ∧
    (code = -32600 → MCPErrorMessage code = "Invalid Request") ∧
    (-32099 ≤ code → code ≤ -32000 → MCPErrorMessage code = "Server error") ∧
    (code = -1 → MCPErrorMessage code = "Unknown error") := by
  have h : MCPErrorMessage code = ErrorMessage code := by
    simp [MCPErrorMessage, h1, h2, h3, h4]
  refine ⟨h, ?_, ?_, ?_⟩
  · intro hc
    subst hc
    rw [h]
    simp [ErrorMessage]
  · intro hlo hhi
    have e1 : code ≠ -32700 := by omega
    have e2 : code ≠ -32600 := by omega
    have e3 : code ≠ -32601 := by omega
    have e4 : code ≠ -32602 := by omega
    have e5 : code ≠ -32603 := by omega
    rw [h]
    simp [ErrorMessage, e1, e2, e3, e4, e5, hlo, hhi]
  · intro hc
    subst hc
    rw [h]
    simp [ErrorMessage]

/-- C10 at the three codes the claim names: -32600, -32050 inside the server range, -1. -/
theorem MCPErrorMessage_delegates_witness :
    MCPErrorMessage (-32600) = "Invalid Request" ∧
    MCPErrorMessage (-32050) = "Server error" ∧
    MCPErrorMessage (-1) = "Unknown error" :=
  ⟨(MCPErrorMessage_delegates (-32600) (by decide) (by decide) (by decide) (by decide)).2.1 rfl,
    (MCPErrorMessage_delegates (-32050) (by decide) (by decide) (by decide)
      (by decide)).2.2.1 (by decide) (by decide),
    (MCPErrorMessage_delegates (-1) (by decide) (by decide) (by decide) (by decide)).2.2.2 rfl⟩

/-- C11: NewErrorResponse(e, id) always returns a Response whose Error is e, whose Result is
absent, whose ID is id and whose JSONRPC is "2.0", for every e (nil included) and id. -/
theorem NewErrorResponse_fields {α : Type} (e : Option Error) (id : Option α) :
    (NewErrorResponse e id).Error = e ∧ (NewErrorResponse e id).Result = none ∧
      (NewErrorResponse e id).ID = id ∧ (NewErrorResponse e id).JSONRPC = "2.0" :=
  ⟨rfl, rfl, rfl, rfl⟩

/-- C12: for every identifier and every result that is absent or serialisable, NewResponse
succeeds with JSONRPC "2.0", the identifier unchanged, Error unset, and Result absent when
result is absent and the serialisation of result otherwise. -/
theorem NewResponse_ok {α ε : Type} (marshal : α → Except ε RawMessage)
    (result id : Option α) (hp : ∀ v, result = some v → ∃ data, marshal v = .ok data) :
    ∃ r, NewResponse marshal result id = .ok r ∧
      r.JSONRPC = "2.0" ∧ r.ID = id ∧ r.Error = none ∧
      (result = none → r.Result = none) ∧
      (∀ v data, result = some v → marshal v = .ok data → r.Result = some data) := by
  cases result with
  | none =>
    refine ⟨{ JSONRPC := Version, Result := none, Error := none, ID := id },
      by simp [NewResponse], rfl, rfl, rfl, fun _ => rfl, ?_⟩
    intro w d hw
    cases hw
  | some v =>
    obtain ⟨data, hd⟩ := hp v rfl
    refine ⟨{ JSONRPC := Version, Result := some data, Error := none, ID := id },
      by simp [NewResponse, hd], rfl, rfl, rfl, fun h => (by cases h), ?_⟩
    intro w d hw hwd
    cases hw
    rw [hd] at hwd
    cases hwd
    rfl

/-- C12 at concrete inputs: result [1,2] with identifier 1. -/
theorem NewResponse_ok_witness :
    ∃ r, NewResponse Dyn.marshal (some (Dyn.ints [1, 2])) (some (Dyn.int 1)) = .ok r ∧
      r.JSONRPC = "2.0" ∧ r.ID = some (Dyn.int 1) ∧ r.Error = none ∧
      r.Result = some "[1,2]" := by
  obtain ⟨r, h, h1, h2, h3, _, h5⟩ :=
    NewResponse_ok Dyn.marshal (some (Dyn.ints [1, 2])) (some (Dyn.int 1))
      (fun v hv => by cases hv; exact ⟨_, rfl⟩)
  exact ⟨r, h, h1, h2, h3, h5 (Dyn.ints [1, 2]) "[1,2]" rfl rfl⟩

/-- C13 fails as stated: NewResponse with an absent result succeeds with both Result and
Error absent, and NewErrorResponse with a nil error returns both absent as well. -/
theorem Response_neither_populated :
    (∃ r, NewResponse Dyn.marshal none (some (Dyn.int 1)) = .ok r ∧
      r.Result = none ∧ r.Error = none) ∧
    (NewErrorResponse none (some (Dyn.int 1))).Result = none ∧
    (NewErrorResponse none (some (Dyn.int 1))).Error = none :=
  ⟨⟨_, rfl, rfl, rfl⟩, rfl, rfl⟩

/-- C13 as amended: a Response returned by NewResponse has Result or Error populated exactly
when the result passed in is present, and one returned by NewErrorResponse exactly when the
error passed in is not nil. -/
theorem Response_populated_iff {α ε : Type} (marshal : α → Except ε RawMessage)
    (result id : Option α) (e : Option Error) (eid : Option α) (r : Response α)
    (h : NewResponse marshal result id = .ok r) :
    ((r.Result ≠ none ∨ r.Error ≠ none) ↔ result ≠ none) ∧
    (((NewErrorResponse e eid).Result ≠ none ∨ (NewErrorResponse e eid).Error ≠ none) ↔
      e ≠ none) := by
  constructor
  · cases result with
    | none =>
      simp only [NewResponse, Except.ok.injEq] at h
      subst h
      simp
    | some v =>
      cases hd : marshal v with
      | error err => simp [NewResponse, hd] at h
      | ok data =>
        simp only [NewResponse, hd, Except.ok.injEq] at h
        subst h
        simp
  · simp [NewErrorResponse]

/-- C13 as amended, at concrete inputs: a present result and a non-nil error each leave one
of the two fields populated. -/
theorem Response_populated_iff_witness :
    ∃ r, NewResponse Dyn.marshal (some (Dyn.int 5)) (some (Dyn.int 1)) = .ok r ∧
      (r.Result ≠ none ∨ r.Error ≠ none) ∧
      ((NewErrorResponse (some (StdError ErrParse)) (some (Dyn.int 1))).Result ≠ none ∨
        (NewErrorResponse (some (StdError ErrParse)) (some (Dyn.int 1))).Error ≠ none) :=
  have h := Response_populated_iff Dyn.marshal (some (Dyn.int 5)) (some (Dyn.int 1))
    (some (StdError ErrParse)) (some (Dyn.int 1)) _ rfl
  ⟨_, rfl, h.1.2 (by simp), h.2.2 (by simp)⟩

/-- C14: a Response returned by NewResponse or NewErrorResponse never has both Result and
Error populated: NewResponse leaves Error unset and NewErrorResponse leaves Result absent. -/
theorem Response_not_both {α ε : Type} (marshal : α → Except ε RawMessage)
    (result id : Option α) (e : Option Error) (eid : Option α) (r : Response α)
    (h : NewResponse marshal result id = .ok r) :
    r.Error = none ∧ ¬ (r.Result ≠ none ∧ r.Error ≠ none) ∧
    (NewErrorResponse e eid).Result = none ∧
    ¬ ((NewErrorResponse e eid).Result ≠ none ∧ (NewErrorResponse e eid).Error ≠ none) := by
  have he : r.Error = none := by
    cases result with
    | none =>
      simp only [NewResponse, Except.ok.injEq] at h
      subst h
      rfl
    | some v =>
      cases hd : marshal v with
      | error err => simp [NewResponse, hd] at h
      | ok data =>
        simp only [NewResponse, hd, Except.ok.injEq] at h
        subst h
        rfl
  refine ⟨he, fun hb => hb.2 he, rfl, fun hb => hb.1 rfl⟩

/-- C14 at concrete inputs: the response for result 5 has no Error, and the error response
for the parse error has no Result. -/
theorem Response_not_both_witness :
    ∃ r, NewResponse Dyn.marshal (some (Dyn.int 5)) (some (Dyn.int 1)) = .ok r ∧
      r.Result = some "5" ∧ r.Error = none ∧
      (NewErrorResponse (some (StdError ErrParse)) (some (Dyn.int 1))).Result = none :=
  have h := Response_not_both Dyn.marshal (some (Dyn.int 5)) (some (Dyn.int 1))
    (some (StdError ErrParse)) (some (Dyn.int 1)) _ rfl
  ⟨_, rfl, rfl, h.1, h.2.2.1⟩

/-- C15: NewError fails only if data is present and cannot be serialised; otherwise it
succeeds with the given code and message, whatever they are, and with Data absent when data
is absent and the serialisation of data otherwise. -/
theorem NewError_spec {α ε : Type} (marshal : α → Except ε RawMessage)
    (code : Int) (message : String) (data : Option α) :
    (∀ e, NewError marshal code message data = .error e →
      ∃ v cause, data = some v ∧ marshal v = .error cause) ∧
    ((∀ v, data = some v → ∃ bytes, marshal v = .ok bytes) →
      ∃ r, NewError marshal code message data = .ok r ∧
        r.Code = code ∧ r.Message = message ∧
        (data = none → r.Data = none) ∧
        (∀ v bytes, data = some v → marshal v = .ok bytes → r.Data = some bytes)) := by
  constructor
  · intro e he
    cases data with
    | none => simp [NewError] at he
    | some v =>
      cases hd : marshal v with
      | error cause => exact ⟨v, cause, rfl, hd⟩
      | ok bytes => simp [NewError, hd] at he
  · intro hp
    cases data with
    | none =>
      refine ⟨{ Code := code, Message := message, Data := none },
        by simp [NewError], rfl, rfl, fun _ => rfl, ?_⟩
      intro w b hw
      cases hw
    | some v =>
      obtain ⟨bytes, hd⟩ := hp v rfl
      refine ⟨{ Code := code, Message := message, Data := some bytes },
        by simp [NewError, hd], rfl, rfl, fun h => (by cases h), ?_⟩
      intro w b hw hwb
      cases hw
      rw [hd] at hwb
      cases hwb
      rfl

/-- C15 at concrete inputs: code 0 with the empty message and data [1,2] is accepted. -/
theorem NewError_spec_witness :
    ∃ r, NewError Dyn.marshal 0 "" (some (Dyn.ints [1, 2])) = .ok r ∧
      r.Code = 0 ∧ r.Message = "" ∧ r.Data = some "[1,2]" := by
  obtain ⟨r, h, h1, h2, _, h4⟩ :=
    (NewError_spec Dyn.marshal 0 "" (some (Dyn.ints [1, 2]))).2
      (fun v hv => by cases hv; exact ⟨_, rfl⟩)
  exact ⟨r, h, h1, h2, h4 (Dyn.ints [1, 2]) "[1,2]" rfl rfl⟩

/-- C16: each of NewRequest (with a non-empty method), NewResponse, NewMCPRequest and
NewMCPResponse fails with e if and only if its payload is present, serialising it fails,
and e is that serialisation failure itself; no message is returned then. -/
theorem constructors_fail_iff {α ε : Type} (marshal : α → Except ε RawMessage)
    (method : String) (payload context id : Option α) (action : MCPAction)
    (tool : String) (status : MCPStatus) (e : GoError ε) (hm : method ≠ "") :
    (NewRequest marshal method payload id = .error e ↔
      ∃ v cause, payload = some v ∧ marshal v = .error cause ∧ e = .marshal cause) ∧
    (NewResponse marshal payload id = .error e ↔
      ∃ v cause, payload = some v ∧ marshal v = .error cause ∧ e = .marshal cause) ∧
    (NewMCPRequest marshal action payload context tool id = .error e ↔
      ∃ v cause, payload = some v ∧ marshal v = .error cause ∧ e = .marshal cause) ∧
    (NewMCPResponse marshal status payload context id = .error e ↔
      ∃ v cause, payload = some v ∧ marshal v = .error cause ∧ e = .marshal cause) := by
  cases payload with
  | none => simp [NewRequest, NewResponse, NewMCPRequest, NewMCPResponse, hm]
  | some v =>
    cases hd : marshal v with
    | error cause =>
      simp [NewRequest, NewResponse, NewMCPRequest, NewMCPResponse, hm, hd, eq_comm]
    | ok data => simp [NewRequest, NewResponse, NewMCPRequest, NewMCPResponse, hm, hd]

/-- C16 at concrete inputs: with a channel as payload each constructor returns the failure
of `json.Marshal` itself. -/
theorem constructors_fail_iff_witness :
    NewRequest Dyn.marshal "sum" (some Dyn.chan) (some (Dyn.int 1)) =
      .error (.marshal "json: unsupported type: chan int") ∧
    NewResponse Dyn.marshal (some Dyn.chan) (some (Dyn.int 1)) =
      .error (.marshal "json: unsupported type: chan int") ∧
    NewMCPRequest Dyn.marshal "execute" (some Dyn.chan) none "calc" (some (Dyn.int 1)) =
      .error (.marshal "json: unsupported type: chan int") ∧
    NewMCPResponse Dyn.marshal "success" (some Dyn.chan) none (some (Dyn.int 1)) =
      .error (.marshal "json: unsupported type: chan int") :=
  have h := constructors_fail_iff Dyn.marshal "sum" (some Dyn.chan) none (some (Dyn.int 1))
    "execute" "calc" "success" (.marshal "json: unsupported type: chan int") (by decide)
  ⟨h.1.2 ⟨_, _, rfl, rfl, rfl⟩, h.2.1.2 ⟨_, _, rfl, rfl, rfl⟩,
    h.2.2.1.2 ⟨_, _, rfl, rfl, rfl⟩, h.2.2.2.2 ⟨_, _, rfl, rfl, rfl⟩⟩

/-- C17: for every action, context, tool, identifier and every params that is absent or
serialisable, NewMCPRequest succeeds with Method the string form of action, Action equal to
action, Context, Tool and ID unchanged, JSONRPC "2.0", and Params absent when params is
absent and the serialisation of params otherwise. -/
theorem NewMCPRequest_ok {α ε : Type} (marshal : α → Except ε RawMessage)
    (action : MCPAction) (params context : Option α) (tool : String) (id : Option α)
    (hp : ∀ v, params = some v → ∃ data, marshal v = .ok data) :
    ∃ r, NewMCPRequest marshal action params context tool id = .ok r ∧
      r.Method = action ∧ r.Action = action ∧ r.Context = context ∧ r.Tool = tool ∧
      r.ID = id ∧ r.JSONRPC = "2.0" ∧
      (params = none → r.Params = none) ∧
      (∀ v data, params = some v → marshal v = .ok data → r.Params = some data) := by
  cases params with
  | none =>
    refine ⟨{ JSONRPC := Version, Method := action, Action := action, Params := none,
              Context := context, Tool := tool, ID := id },
      by simp [NewMCPRequest], rfl, rfl, rfl, rfl, rfl, rfl, fun _ => rfl, ?_⟩
    intro w d hw
    cases hw
  | some v =>
    obtain ⟨data, hd⟩ := hp v rfl
    refine ⟨{ JSONRPC := Version, Method := action, Action := action, Params := some data,
              Context := context, Tool := tool, ID := id },
      by simp [NewMCPRequest, hd], rfl, rfl, rfl, rfl, rfl, rfl, fun h => (by cases h), ?_⟩
    intro w d hw hwd
    cases hw
    rw [hd] at hwd
    cases hwd
    rfl

/-- C17 at the example of the claim: action "execute", tool "calc", identifier 9. -/
theorem NewMCPRequest_ok_witness :
    ∃ r, NewMCPRequest Dyn.marshal MCPActionExecute (some (Dyn.ints [1])) (some (Dyn.int 2))
        "calc" (some (Dyn.int 9)) = .ok r ∧
      r.Method = "execute" ∧ r.Action = "execute" ∧ r.Context = some (Dyn.int 2) ∧
      r.Tool = "calc" ∧ r.ID = some (Dyn.int 9) ∧ r.JSONRPC = "2.0" ∧
      r.Params = some "[1]" := by
  obtain ⟨r, h, h1, h2, h3, h4, h5, h6, _, h8⟩ :=
    NewMCPRequest_ok Dyn.marshal MCPActionExecute (some (Dyn.ints [1])) (some (Dyn.int 2))
      "calc" (some (Dyn.int 9)) (fun v hv => by cases hv; exact ⟨_, rfl⟩)
  exact ⟨r, h, h1, h2, h3, h4, h5, h6, h8 (Dyn.ints [1]) "[1]" rfl rfl⟩

/-- C18: NewMCPErrorResponse(e, context, id) always returns an MCPResponse whose Status is
"error", whose Data is absent, whose Error is e, whose Context and ID are the given ones and
whose JSONRPC is "2.0". -/
theorem NewMCPErrorResponse_fields {α : Type} (e : Option Error) (context id : Option α) :
    (NewMCPErrorResponse e context id).Status = "error" ∧
      (NewMCPErrorResponse e context id).Data = none ∧
      (NewMCPErrorResponse e context id).Error = e ∧
      (NewMCPErrorResponse e context id).Context = context ∧
      (NewMCPErrorResponse e context id).ID = id ∧
      (NewMCPErrorResponse e context id).JSONRPC = "2.0" :=
  ⟨rfl, rfl, rfl, rfl, rfl, rfl⟩

/-- C19: for every status, context, identifier and every data that is absent or
serialisable, NewMCPResponse succeeds with Status equal to the given status whatever its
value, Context and ID unchanged, Error unset, JSONRPC "2.0", and Data absent when data is
absent and the serialisation of data otherwise. -/
theorem NewMCPResponse_ok {α ε : Type} (marshal : α → Except ε RawMessage)
    (status : MCPStatus) (data context id : Option α)
    (hp : ∀ v, data = some v → ∃ bytes, marshal v = .ok bytes) :
    ∃ r, NewMCPResponse marshal status data context id = .ok r ∧
      r.Status = status ∧ r.Context = context ∧ r.ID = id ∧ r.Error = none ∧
      r.JSONRPC = "2.0" ∧
      (data = none → r.Data = none) ∧
      (∀ v bytes, data = some v → marshal v = .ok bytes → r.Data = some bytes) := by
  cases data with
  | none =>
    refine ⟨{ JSONRPC := Version, Status := status, Data := none, Error := none,
              Context := context, ID := id },
      by simp [NewMCPResponse], rfl, rfl, rfl, rfl, rfl, fun _ => rfl, ?_⟩
    intro w b hw
    cases hw
  | some v =>
    obtain ⟨bytes, hd⟩ := hp v rfl
    refine ⟨{ JSONRPC := Version, Status := status, Data := some bytes, Error := none,
              Context := context, ID := id },
      by simp [NewMCPResponse, hd], rfl, rfl, rfl, rfl, rfl, fun h => (by cases h), ?_⟩
    intro w b hw hwb
    cases hw
    rw [hd] at hwb
    cases hwb
    rfl

/-- C19 at concrete inputs: the status "error" is accepted by NewMCPResponse and kept, with
data 5 and no Error. -/
theorem NewMCPResponse_ok_witness :
    ∃ r, NewMCPResponse Dyn.marshal MCPStatusError (some (Dyn.int 5)) none
        (some (Dyn.int 1)) = .ok r ∧
      r.Status = "error" ∧ r.Context = none ∧ r.ID = some (Dyn.int 1) ∧ r.Error = none ∧
      r.JSONRPC = "2.0" ∧ r.Data = some "5" := by
  obtain ⟨r, h, h1, h2, h3, h4, h5, _, h7⟩ :=
    NewMCPResponse_ok Dyn.marshal MCPStatusError (some (Dyn.int 5)) none (some (Dyn.int 1))
      (fun v hv => by cases hv; exact ⟨_, rfl⟩)
  exact ⟨r, h, h1, h2, h3, h4, h5, h7 (Dyn.int 5) "5" rfl rfl⟩

/-- A successful NewRequest had a non-empty method and returned the request made of Version,
the method, the identifier, and Params nil (params absent) or the marshalled params. -/
theorem NewRequest_ok_inv {α ε : Type} (marshal : α → Except ε RawMessage)
    (method : String) (params id : Option α) (r : Request α)
    (h : NewRequest marshal method params id = .ok r) :
    method ≠ "" ∧
    ((params = none ∧ r = { JSONRPC := Version, Method := method, Params := none, ID := id }) ∨
      ∃ v data, params = some v ∧ marshal v = .ok data ∧
        r = { JSONRPC := Version, Method := method, Params := some data, ID := id }) := by
  by_cases hm : method = ""
  · simp [NewRequest, hm] at h
  · refine ⟨hm, ?_⟩
    cases params with
    | none =>
      simp only [NewRequest, hm, if_false, Except.ok.injEq] at h
      exact Or.inl ⟨rfl, h.symm⟩
    | some v =>
      cases hd : marshal v with
      | error err => simp [NewRequest, hm, hd] at h
      | ok data =>
        simp only [NewRequest, hm, if_false, hd, Except.ok.injEq] at h
        exact Or.inr ⟨v, data, rfl, hd, h.symm⟩

/-- C20: for a Request built by NewRequest or NewNotification, every JSON object encoding
of it has the member "jsonrpc" with value "2.0" and the member "method" (carrying the
method), has the key "params" if and only if params were supplied, and has the key "id" if
and only if the identifier is present, hence lacks "id" exactly when the request is a
notification; and the encoding exists whenever the identifier is absent or serialisable.
The hypothesis on `marshal` is that `json.Marshal` does not return an empty text for params. -/
theorem Request_encode_keys {α ε : Type} (marshal : α → Except ε RawMessage)
    (compact : RawMessage → Except ε RawMessage)
    (method : String) (params id : Option α) (r : Request α)
    (hb : NewRequest marshal method params id = .ok r ∨
      (id = none ∧ NewNotification marshal method params = .ok r))
    (hne : ∀ v data, params = some v → marshal v = .ok data → data ≠ "") :
    (∀ members, r.encode marshal compact = .ok members →
      ("jsonrpc", JValue.string "2.0") ∈ members ∧
      ("method", JValue.string method) ∈ members ∧
      ("params" ∈ members.map Prod.fst ↔ params ≠ none) ∧
      ("id" ∈ members.map Prod.fst ↔ id ≠ none) ∧
      ("id" ∉ members.map Prod.fst ↔ r.IsNotification = true)) ∧
    ((∀ v data, params = some v → marshal v = .ok data → ∃ c, compact data = .ok c) →
      (∀ v, id = some v → ∃ t, marshal v = .ok t) →
      ∃ members, r.encode marshal compact = .ok members) := by
  have h : NewRequest marshal method params id = .ok r := by
    rcases hb with hb | ⟨hid, hb⟩
    · exact hb
    · subst hid
      exact hb
  obtain ⟨_, hr⟩ := NewRequest_ok_inv marshal method params id r h
  rcases hr with ⟨hp, hr⟩ | ⟨v, data, hp, hd, hr⟩
  · subst hp hr
    constructor
    · intro members hm
      cases id with
      | none =>
        simp only [Request.encode, omitemptyRaw, omitemptyIface, Except.ok.injEq] at hm
        subst hm
        simp [Request.IsNotification]
      | some w =>
        cases hw : marshal w with
        | error err => simp [Request.encode, omitemptyRaw, omitemptyIface, hw] at hm
        | ok t =>
          simp only [Request.encode, omitemptyRaw, omitemptyIface, hw, Except.ok.injEq] at hm
          subst hm
          simp [Request.IsNotification]
    · intro _ hid
      cases id with
      | none => exact ⟨_, rfl⟩
      | some w =>
        obtain ⟨t, ht⟩ := hid w rfl
        exact ⟨_, by simp [Request.encode, omitemptyRaw, omitemptyIface, ht]; rfl⟩
  · subst hp hr
    have hdne : data ≠ "" := hne v data rfl hd
    constructor
    · intro members hm
      cases hc : compact data with
      | error err => simp [Request.encode, omitemptyRaw, hdne, hc] at hm
      | ok c =>
        cases id with
        | none =>
          simp only [Request.encode, omitemptyRaw, omitemptyIface, hdne, hc, if_false,
            Except.ok.injEq] at hm
          subst hm
          simp [Request.IsNotification]
        | some w =>
          cases hw : marshal w with
          | error err =>
            simp [Request.encode, omitemptyRaw, omitemptyIface, hdne, hc, hw] at hm
          | ok t =>
            simp only [Request.encode, omitemptyRaw, omitemptyIface, hdne, hc, hw, if_false,
              Except.ok.injEq] at hm
            subst hm
            simp [Request.IsNotification]
    · intro hcmp hid
      obtain ⟨c, hc⟩ := hcmp v data rfl hd
      cases id with
      | none =>
        exact ⟨_, by simp [Request.encode, omitemptyRaw, omitemptyIface, hdne, hc]; rfl⟩
      | some w =>
        obtain ⟨t, ht⟩ := hid w rfl
        exact ⟨_, by simp [Request.encode, omitemptyRaw, omitemptyIface, hdne, hc, ht]; rfl⟩

/-- C20 at concrete inputs: the request "sum" with params [1,2] and identifier 7 encodes
with all four keys, and the notification "tick" without params encodes with neither "params"
nor "id". -/
theorem Request_encode_keys_witness :
    (∃ r, NewRequest Dyn.marshal "sum" (some (Dyn.ints [1, 2])) (some (Dyn.int 7)) = .ok r ∧
      ∃ members, r.encode Dyn.marshal Dyn.compact = .ok members ∧
        members.map Prod.fst = ["jsonrpc", "method", "params", "id"] ∧
        ("jsonrpc", JValue.string "2.0") ∈ members) ∧
    (∃ r, NewNotification Dyn.marshal "tick" none = .ok r ∧
      ∃ members, r.encode Dyn.marshal Dyn.compact = .ok members ∧
        members.map Prod.fst = ["jsonrpc", "method"] ∧
        "id" ∉ members.map Prod.fst ∧ r.IsNotification = true) :=
  have h1 := Request_encode_keys Dyn.marshal Dyn.compact "sum" (some (Dyn.ints [1, 2]))
    (some (Dyn.int 7)) _ (Or.inl rfl)
    (fun v data hv hd => by cases hv; cases hd; decide)
  have h2 := Request_encode_keys Dyn.marshal Dyn.compact "tick" none none _
    (Or.inr ⟨rfl, rfl⟩) (fun v data hv _ => by cases hv)
  ⟨⟨_, rfl, _, rfl, rfl, (h1.1 _ rfl).1⟩,
    ⟨_, rfl, _, rfl, rfl, (h2.1 _ rfl).2.2.2.2.2 rfl, rfl⟩⟩

/-- C25: NewMCPRequest validates nothing about action, context, tool or id: for every action,
the empty one and those outside the four standard actions included, it succeeds when params
is absent or serialisable; with the empty action the request has an empty Method, whereas
NewRequest rejects the empty method. -/
theorem NewMCPRequest_no_validation {α ε : Type} (marshal : α → Except ε RawMessage)
    (action : MCPAction) (params context : Option α) (tool : String) (id : Option α)
    (hp : ∀ v, params = some v → ∃ data, marshal v = .ok data) :
    (∃ r, NewMCPRequest marshal action params context tool id = .ok r ∧
      r.Method = action ∧ r.Action = action ∧ (action = "" → r.Method = "")) ∧
    NewRequest marshal "" params id = .error (.rpc (StdError ErrInvalidRequest)) := by
  constructor
  · cases params with
    | none =>
      exact ⟨{ JSONRPC := Version, Method := action, Action := action, Params := none,
               Context := context, Tool := tool, ID := id },
        by simp [NewMCPRequest], rfl, rfl, fun h => h⟩
    | some v =>
      obtain ⟨data, hd⟩ := hp v rfl
      exact ⟨{ JSONRPC := Version, Method := action, Action := action, Params := some data,
               Context := context, Tool := tool, ID := id },
        by simp [NewMCPRequest, hd], rfl, rfl, fun h => h⟩
  · simp [NewRequest]

/-- C25 at concrete inputs: the empty action and the action "restart", which is not one of
the four standard actions, are both accepted. -/
theorem NewMCPRequest_no_validation_witness :
    (∃ r, NewMCPRequest Dyn.marshal "" (some (Dyn.ints [1])) none "" none = .ok r ∧
      r.Method = "" ∧ r.Action = "") ∧
    (∃ r, NewMCPRequest Dyn.marshal "restart" none none "calc" (some (Dyn.int 3)) = .ok r ∧
      r.Method = "restart" ∧ r.Action = "restart") := by
  obtain ⟨r, h, h1, h2, _⟩ :=
    (NewMCPRequest_no_validation Dyn.marshal "" (some (Dyn.ints [1])) none "" none
      (fun v hv => by cases hv; exact ⟨_, rfl⟩)).1
  obtain ⟨q, g, g1, g2, _⟩ :=
    (NewMCPRequest_no_validation Dyn.marshal "restart" none none "calc" (some (Dyn.int 3))
      (fun v hv => by cases hv)).1
  exact ⟨⟨r, h, h1, h2⟩, ⟨q, g, g1, g2⟩⟩

/-- C26: the five named codes are pairwise distinct and none lies in the server-error range;
the four MCP codes are pairwise distinct, coincide with no named code and lie outside the
range; so ErrorMessage returns "Unknown error" for each MCP code, and wherever
MCPErrorMessage differs from ErrorMessage the base message was "Unknown error". -/
theorem error_codes_partitioned :
    [ErrParse, ErrInvalidRequest, ErrMethodNotFound, ErrInvalidParams, ErrInternal].Nodup ∧
    (∀ c ∈ [ErrParse, ErrInvalidRequest, ErrMethodNotFound, ErrInvalidParams, ErrInternal],
      ¬ (ErrServerErrorStart ≤ c ∧ c ≤ ErrServerErrorEnd)) ∧
    [ErrMCPActionNotSupported, ErrMCPToolNotAvailable, ErrMCPContextInvalid,
      ErrMCPExecutionFailed].Nodup ∧
    (∀ c ∈ [ErrMCPActionNotSupported, ErrMCPToolNotAvailable, ErrMCPContextInvalid,
        ErrMCPExecutionFailed],
      c ∉ [ErrParse, ErrInvalidRequest, ErrMethodNotFound, ErrInvalidParams, ErrInternal] ∧
      ¬ (ErrServerErrorStart ≤ c ∧ c ≤ ErrServerErrorEnd) ∧
      ErrorMessage c = "Unknown error") ∧
    (∀ code : Int, MCPErrorMessage code ≠ ErrorMessage code →
      ErrorMessage code = "Unknown error") := by
  refine ⟨by decide, by decide, by decide, ?_, ?_⟩
  · intro c hc
    simp only [List.mem_cons, List.mem_singleton, List.not_mem_nil, or_false] at hc
    rcases hc with h | h | h | h <;> subst h <;>
      exact ⟨by decide, by decide, by simp [ErrorMessage]⟩
  · intro code h
    by_cases h1 : code = -33001
    · subst h1; simp [ErrorMessage]
    by_cases h2 : code = -33002
    · subst h2; simp [ErrorMessage]
    by_cases h3 : code = -33003
    · subst h3; simp [ErrorMessage]
    by_cases h4 : code = -33004
    · subst h4; simp [ErrorMessage]
    exact absurd (by simp [MCPErrorMessage, h1, h2, h3, h4]) h

/-- C27: for an MCPResponse returned by NewMCPResponse or NewMCPErrorResponse, a populated
Error comes with Status "error" and absent Data, and Data and Error are never both populated;
the converse fails, since NewMCPResponse accepts the status "error" and sets no Error. -/
theorem MCPResponse_error_invariant {α ε : Type} (marshal : α → Except ε RawMessage)
    (status : MCPStatus) (data context id : Option α) (e : Option Error)
    (econtext eid : Option α) (r : MCPResponse α)
    (h : NewMCPResponse marshal status data context id = .ok r) :
    (r.Error ≠ none → r.Status = "error" ∧ r.Data = none) ∧
    ¬ (r.Data ≠ none ∧ r.Error ≠ none) ∧
    ((NewMCPErrorResponse e econtext eid).Error ≠ none →
      (NewMCPErrorResponse e econtext eid).Status = "error" ∧
      (NewMCPErrorResponse e econtext eid).Data = none) ∧
    ¬ ((NewMCPErrorResponse e econtext eid).Data ≠ none ∧
      (NewMCPErrorResponse e econtext eid).Error ≠ none) ∧
    (status = "error" → r.Status = "error" ∧ r.Error = none) := by
  have he : r.Error = none ∧ r.Status = status := by
    cases data with
    | none =>
      simp only [NewMCPResponse, Except.ok.injEq] at h
      subst h
      exact ⟨rfl, rfl⟩
    | some v =>
      cases hd : marshal v with
      | error err => simp [NewMCPResponse, hd] at h
      | ok bytes =>
        simp only [NewMCPResponse, hd, Except.ok.injEq] at h
        subst h
        exact ⟨rfl, rfl⟩
  refine ⟨fun hne => absurd he.1 hne, fun hb => hb.2 he.1, fun _ => ⟨rfl, rfl⟩,
    fun hb => hb.1 rfl, fun hs => ⟨by rw [he.2, hs], he.1⟩⟩

/-- C27 at concrete inputs: the error response for the parse error has Status "error" and
no Data, and NewMCPResponse with status "error" returns that status with no Error. -/
theorem MCPResponse_error_invariant_witness :
    ((NewMCPErrorResponse (some (StdError ErrParse)) none (some (Dyn.int 1))).Status = "error" ∧
      (NewMCPErrorResponse (some (StdError ErrParse)) none (some (Dyn.int 1))).Data = none) ∧
    (∃ r, NewMCPResponse Dyn.marshal "error" (some (Dyn.int 5)) none (some (Dyn.int 1)) = .ok r ∧
      r.Status = "error" ∧ r.Error = none) :=
  have h := MCPResponse_error_invariant Dyn.marshal "error" (some (Dyn.int 5)) none
    (some (Dyn.int 1)) (some (StdError ErrParse)) none (some (Dyn.int 1)) _ rfl
  ⟨h.2.2.1 (by simp [NewMCPErrorResponse]), _, rfl, h.2.2.2.2 rfl⟩

/-- What `omitemptyRaw` returns on success: nothing for a nil or empty slice, one member
holding the compacted bytes otherwise. -/
theorem omitemptyRaw_inv {ε : Type} (compact : RawMessage → Except ε RawMessage)
    (name : String) (m : Option RawMessage) (ps : List (String × JValue))
    (h : omitemptyRaw compact name m = .ok ps) :
    (ps = [] ∧ (m = none ∨ m = some "")) ∨
    (∃ b c, m = some b ∧ b ≠ "" ∧ compact b = .ok c ∧ ps = [(name, .raw c)]) := by
  cases m with
  | none =>
    simp only [omitemptyRaw, Except.ok.injEq] at h
    exact Or.inl ⟨h.symm, Or.inl rfl⟩
  | some b =>
    by_cases hb : b = ""
    · simp only [omitemptyRaw, hb, if_true, Except.ok.injEq] at h
      exact Or.inl ⟨h.symm, Or.inr (by rw [hb])⟩
    · cases hc : compact b with
      | error err => simp [omitemptyRaw, hb, hc] at h
      | ok c =>
        simp only [omitemptyRaw, hb, if_false, hc, Except.ok.injEq] at h
        exact Or.inr ⟨b, c, rfl, hb, hc, h.symm⟩

/-- What `omitemptyIface` returns on success: nothing for the nil interface, one member
holding the encoded dynamic value otherwise. -/
theorem omitemptyIface_inv {α ε : Type} (marshal : α → Except ε RawMessage)
    (name : String) (v : Option α) (ms : List (String × JValue))
    (h : omitemptyIface marshal name v = .ok ms) :
    (ms = [] ∧ v = none) ∨
    (∃ x t, v = some x ∧ marshal x = .ok t ∧ ms = [(name, .raw t)]) := by
  cases v with
  | none =>
    simp only [omitemptyIface, Except.ok.injEq] at h
    exact Or.inl ⟨h.symm, rfl⟩
  | some x =>
    cases hx : marshal x with
    | error err => simp [omitemptyIface, hx] at h
    | ok t =>
      simp only [omitemptyIface, hx, Except.ok.injEq] at h
      exact Or.inr ⟨x, t, rfl, hx, h.symm⟩

/-- What `omitemptyError` returns on success: nothing for the nil pointer, one member
holding the object of the Error otherwise. -/
theorem omitemptyError_inv {ε : Type} (compact : RawMessage → Except ε RawMessage)
    (name : String) (e : Option Error) (ms : List (String × JValue))
    (h : omitemptyError compact name e = .ok ms) :
    (ms = [] ∧ e = none) ∨
    (∃ x es, e = some x ∧ x.encode compact = .ok es ∧ ms = [(name, .object es)]) := by
  cases e with
  | none =>
    simp only [omitemptyError, Except.ok.injEq] at h
    exact Or.inl ⟨h.symm, rfl⟩
  | some x =>
    cases hx : x.encode compact with
    | error err => simp [omitemptyError, hx] at h
    | ok es =>
      simp only [omitemptyError, hx, Except.ok.injEq] at h
      exact Or.inr ⟨x, es, rfl, hx, h.symm⟩

/-- What `ifaceValue` returns on success: `null` for the nil interface, the encoded
dynamic value otherwise. -/
theorem ifaceValue_inv {α ε : Type} (marshal : α → Except ε RawMessage)
    (v : Option α) (j : JValue) (h : ifaceValue marshal v = .ok j) :
    (j = .null ∧ v = none) ∨ (∃ x t, v = some x ∧ marshal x = .ok t ∧ j = .raw t) := by
  cases v with
  | none =>
    simp only [ifaceValue, Except.ok.injEq] at h
    exact Or.inl ⟨h.symm, rfl⟩
  | some x =>
    cases hx : marshal x with
    | error err => simp [ifaceValue, hx] at h
    | ok t =>
      simp only [ifaceValue, hx, Except.ok.injEq] at h
      exact Or.inr ⟨x, t, rfl, hx, h.symm⟩

/-- A successful encoding of a Response is made of the successful encodings of its
fields, in the order of the struct. -/
theorem Response_encode_inv {α ε : Type} (marshal : α → Except ε RawMessage)
    (compact : RawMessage → Except ε RawMessage) (r : Response α)
    (ms : List (String × JValue)) (h : r.encode marshal compact = .ok ms) :
    ∃ rs es j, omitemptyRaw compact "result" r.Result = .ok rs ∧
      omitemptyError compact "error" r.Error = .ok es ∧ ifaceValue marshal r.ID = .ok j ∧
      ms = [("jsonrpc", .string r.JSONRPC)] ++ rs ++ es ++ [("id", j)] := by
  unfold Response.encode at h
  cases h1 : omitemptyRaw compact "result" r.Result with
  | error err => simp [h1] at h
  | ok rs =>
    cases h2 : omitemptyError compact "error" r.Error with
    | error err => simp [h1, h2] at h
    | ok es =>
      cases h3 : ifaceValue marshal r.ID with
      | error err => simp [h1, h2, h3] at h
      | ok j =>
        simp only [h1, h2, h3, Except.ok.injEq] at h
        exact ⟨rs, es, j, rfl, rfl, rfl, h.symm⟩

/-- A successful encoding of an MCPResponse is made of the successful encodings of its
fields, in the order of the struct. -/
theorem MCPResponse_encode_inv {α ε : Type} (marshal : α → Except ε RawMessage)
    (compact : RawMessage → Except ε RawMessage) (r : MCPResponse α)
    (ms : List (String × JValue)) (h : r.encode marshal compact = .ok ms) :
    ∃ ds es cs j, omitemptyRaw compact "data" r.Data = .ok ds ∧
      omitemptyError compact "error" r.Error = .ok es ∧
      omitemptyIface marshal "context" r.Context = .ok cs ∧
      ifaceValue marshal r.ID = .ok j ∧
      ms = [("jsonrpc", .string r.JSONRPC), ("status", .string r.Status)] ++ ds ++ es ++ cs
        ++ [("id", j)] := by
  unfold MCPResponse.encode at h
  cases h1 : omitemptyRaw compact "data" r.Data with
  | error err => simp [h1] at h
  | ok ds =>
    cases h2 : omitemptyError compact "error" r.Error with
    | error err => simp [h1, h2] at h
    | ok es =>
      cases h3 : omitemptyIface marshal "context" r.Context with
      | error err => simp [h1, h2, h3] at h
      | ok cs =>
        cases h4 : ifaceValue marshal r.ID with
        | error err => simp [h1, h2, h3, h4] at h
        | ok j =>
          simp only [h1, h2, h3, h4, Except.ok.injEq] at h
          exact ⟨ds, es, cs, j, rfl, rfl, rfl, rfl, h.symm⟩

/-- A successful encoding of an MCPRequest is made of the successful encodings of its
fields, in the order of the struct. -/
theorem MCPRequest_encode_inv {α ε : Type} (marshal : α → Except ε RawMessage)
    (compact : RawMessage → Except ε RawMessage) (r : MCPRequest α)
    (ms : List (String × JValue)) (h : r.encode marshal compact = .ok ms) :
    ∃ ps cs ids, omitemptyRaw compact "params" r.Params = .ok ps ∧
      omitemptyIface marshal "context" r.Context = .ok cs ∧
      omitemptyIface marshal "id" r.ID = .ok ids ∧
      ms = [("jsonrpc", .string r.JSONRPC), ("method", .string r.Method),
            ("action", .string r.Action)] ++ ps ++ cs ++ omitemptyString "tool" r.Tool
            ++ ids := by
  unfold MCPRequest.encode at h
  cases h1 : omitemptyRaw compact "params" r.Params with
  | error err => simp [h1] at h
  | ok ps =>
    cases h2 : omitemptyIface marshal "context" r.Context with
    | error err => simp [h1, h2] at h
    | ok cs =>
      cases h3 : omitemptyIface marshal "id" r.ID with
      | error err => simp [h1, h2, h3] at h
      | ok ids =>
        simp only [h1, h2, h3, Except.ok.injEq] at h
        exact ⟨ps, cs, ids, rfl, rfl, rfl, h.symm⟩

/-- A successful encoding of a Request is made of the successful encodings of its fields,
in the order of the struct. -/
theorem Request_encode_inv {α ε : Type} (marshal : α → Except ε RawMessage)
    (compact : RawMessage → Except ε RawMessage) (r : Request α)
    (ms : List (String × JValue)) (h : r.encode marshal compact = .ok ms) :
    ∃ ps ids, omitemptyRaw compact "params" r.Params = .ok ps ∧
      omitemptyIface marshal "id" r.ID = .ok ids ∧
      ms = [("jsonrpc", .string r.JSONRPC), ("method", .string r.Method)] ++ ps ++ ids := by
  unfold Request.encode at h
  cases h1 : omitemptyRaw compact "params" r.Params with
  | error err => simp [h1] at h
  | ok ps =>
    cases h2 : omitemptyIface marshal "id" r.ID with
    | error err => simp [h1, h2] at h
    | ok ids =>
      simp only [h1, h2, Except.ok.injEq] at h
      exact ⟨ps, ids, rfl, rfl, h.symm⟩

/-- C21 fails as stated: a Response (an MCPResponse) whose Result (Data) is an empty but
non-nil RawMessage has the field present, and yet the encoding leaves "result" ("data")
out, because `omitempty` tests the length of the slice. -/
theorem Response_empty_result_omitted :
    ((⟨"2.0", some "", none, none⟩ : Response Dyn).Result ≠ none ∧
      ∃ ms, (⟨"2.0", some "", none, none⟩ : Response Dyn).encode Dyn.marshal Dyn.compact
          = .ok ms ∧
        ms.map Prod.fst = ["jsonrpc", "id"]) ∧
    ((⟨"2.0", "success", some "", none, none, none⟩ : MCPResponse Dyn).Data ≠ none ∧
      ∃ ms, (⟨"2.0", "success", some "", none, none, none⟩ : MCPResponse Dyn).encode
          Dyn.marshal Dyn.compact = .ok ms ∧
        ms.map Prod.fst = ["jsonrpc", "status", "id"]) :=
  ⟨⟨by simp, _, rfl, rfl⟩, ⟨by simp, _, rfl, rfl⟩⟩

/-- C21 as amended: every JSON object encoding of a Response or an MCPResponse has the key
"id", with the value null when the identifier is absent; "result" (resp. "data") is left
out exactly when the field is nil or empty, "error" exactly when the Error is nil and, for
an MCPResponse, "context" exactly when the context is absent. -/
theorem Response_encode_keys {α ε : Type} (marshal : α → Except ε RawMessage)
    (compact : RawMessage → Except ε RawMessage) (r : Response α) (m : MCPResponse α) :
    (∀ ms, r.encode marshal compact = .ok ms →
      "id" ∈ ms.map Prod.fst ∧ (r.ID = none → ("id", JValue.null) ∈ ms) ∧
      ("result" ∉ ms.map Prod.fst ↔ (r.Result = none ∨ r.Result = some "")) ∧
      ("error" ∉ ms.map Prod.fst ↔ r.Error = none)) ∧
    (∀ ms, m.encode marshal compact = .ok ms →
      "id" ∈ ms.map Prod.fst ∧ (m.ID = none → ("id", JValue.null) ∈ ms) ∧
      ("data" ∉ ms.map Prod.fst ↔ (m.Data = none ∨ m.Data = some "")) ∧
      ("error" ∉ ms.map Prod.fst ↔ m.Error = none) ∧
      ("context" ∉ ms.map Prod.fst ↔ m.Context = none)) := by
  constructor
  · intro ms h
    obtain ⟨rs, es, j, h1, h2, h3, hms⟩ := Response_encode_inv marshal compact r ms h
    subst hms
    rcases omitemptyRaw_inv compact "result" r.Result rs h1 with
      ⟨hrs, hr⟩ | ⟨b, c, hr, hb, _, hrs⟩ <;>
    rcases omitemptyError_inv compact "error" r.Error es h2 with
      ⟨hes, he⟩ | ⟨x, xs, he, _, hes⟩ <;>
    rcases ifaceValue_inv marshal r.ID j h3 with ⟨hj, hi⟩ | ⟨y, t, hi, _, hj⟩ <;>
    subst hrs hes hj <;> first | simp [hr, he, hi, hb] | simp [hr, he, hi]
  · intro ms h
    obtain ⟨ds, es, cs, j, h1, h2, h3, h4, hms⟩ := MCPResponse_encode_inv marshal compact m ms h
    subst hms
    rcases omitemptyRaw_inv compact "data" m.Data ds h1 with
      ⟨hds, hd⟩ | ⟨b, c, hd, hb, _, hds⟩ <;>
    rcases omitemptyError_inv compact "error" m.Error es h2 with
      ⟨hes, he⟩ | ⟨x, xs, he, _, hes⟩ <;>
    rcases omitemptyIface_inv marshal "context" m.Context cs h3 with
      ⟨hcs, hc⟩ | ⟨z, u, hc, _, hcs⟩ <;>
    rcases ifaceValue_inv marshal m.ID j h4 with ⟨hj, hi⟩ | ⟨y, t, hi, _, hj⟩ <;>
    subst hds hes hcs hj <;> first | simp [hd, he, hc, hi, hb] | simp [hd, he, hc, hi]

/-- C21 as amended, at concrete inputs: the error response for the parse error without an
identifier encodes with "error" and a null "id" and without "result". -/
theorem Response_encode_keys_witness :
    ∃ ms, (NewErrorResponse (some (StdError ErrParse)) (none : Option Dyn)).encode
        Dyn.marshal Dyn.compact = .ok ms ∧
      ms.map Prod.fst = ["jsonrpc", "error", "id"] ∧
      ("id", JValue.null) ∈ ms ∧ "result" ∉ ms.map Prod.fst :=
  have h := (Response_encode_keys Dyn.marshal Dyn.compact
    (NewErrorResponse (some (StdError ErrParse)) (none : Option Dyn))
    (NewMCPErrorResponse none none none)).1 _ rfl
  ⟨_, rfl, rfl, h.2.1 rfl, h.2.2.1.2 (Or.inl rfl)⟩

/-- `omitemptyRaw` succeeds when the encoder accepts the bytes of a non-empty slice. -/
theorem omitemptyRaw_ok_of {ε : Type} (compact : RawMessage → Except ε RawMessage)
    (name : String) (m : Option RawMessage)
    (h : ∀ b, m = some b → b ≠ "" → ∃ c, compact b = .ok c) :
    ∃ ps, omitemptyRaw compact name m = .ok ps := by
  cases m with
  | none => exact ⟨[], rfl⟩
  | some b =>
    by_cases hb : b = ""
    · exact ⟨[], by simp [omitemptyRaw, hb]⟩
    · obtain ⟨c, hc⟩ := h b rfl hb
      exact ⟨[(name, .raw c)], by simp [omitemptyRaw, hb, hc]⟩

/-- `omitemptyIface` succeeds when the dynamic value, if any, is serialisable. -/
theorem omitemptyIface_ok_of {α ε : Type} (marshal : α → Except ε RawMessage)
    (name : String) (v : Option α) (h : ∀ x, v = some x → ∃ t, marshal x = .ok t) :
    ∃ ms, omitemptyIface marshal name v = .ok ms := by
  cases v with
  | none => exact ⟨[], rfl⟩
  | some x =>
    obtain ⟨t, ht⟩ := h x rfl
    exact ⟨[(name, .raw t)], by simp [omitemptyIface, ht]⟩

/-- `ifaceValue` succeeds when the dynamic value, if any, is serialisable. -/
theorem ifaceValue_ok_of {α ε : Type} (marshal : α → Except ε RawMessage)
    (v : Option α) (h : ∀ x, v = some x → ∃ t, marshal x = .ok t) :
    ∃ j, ifaceValue marshal v = .ok j := by
  cases v with
  | none => exact ⟨.null, rfl⟩
  | some x =>
    obtain ⟨t, ht⟩ := h x rfl
    exact ⟨.raw t, by simp [ifaceValue, ht]⟩

/-- `omitemptyError` succeeds when the encoder accepts the Data of the Error, if any. -/
theorem omitemptyError_ok_of {ε : Type} (compact : RawMessage → Except ε RawMessage)
    (name : String) (e : Option Error)
    (h : ∀ x b, e = some x → x.Data = some b → b ≠ "" → ∃ c, compact b = .ok c) :
    ∃ ms, omitemptyError compact name e = .ok ms := by
  cases e with
  | none => exact ⟨[], rfl⟩
  | some x =>
    obtain ⟨ds, hds⟩ := omitemptyRaw_ok_of compact "data" x.Data (fun b hb => h x b rfl hb)
    exact ⟨[(name, .object ([("code", .number x.Code), ("message", .string x.Message)] ++ ds))],
      by simp [omitemptyError, Error.encode, hds]⟩

/-- A successful NewMCPRequest returned the request made of Version, the action as Method
and Action, the context, tool and identifier, and Params nil or the marshalled params. -/
theorem NewMCPRequest_ok_inv {α ε : Type} (marshal : α → Except ε RawMessage)
    (action : MCPAction) (params context : Option α) (tool : String) (id : Option α)
    (r : MCPRequest α) (h : NewMCPRequest marshal action params context tool id = .ok r) :
    (params = none ∧
      r = { JSONRPC := Version, Method := action, Action := action, Params := none,
            Context := context, Tool := tool, ID := id }) ∨
    ∃ v data, params = some v ∧ marshal v = .ok data ∧
      r = { JSONRPC := Version, Method := action, Action := action, Params := some data,
            Context := context, Tool := tool, ID := id } := by
  cases params with
  | none =>
    simp only [NewMCPRequest, Except.ok.injEq] at h
    exact Or.inl ⟨rfl, h.symm⟩
  | some v =>
    cases hd : marshal v with
    | error err => simp [NewMCPRequest, hd] at h
    | ok data =>
      simp only [NewMCPRequest, hd, Except.ok.injEq] at h
      exact Or.inr ⟨v, data, rfl, hd, h.symm⟩

/-- C22: for an MCPRequest built by NewMCPRequest, every JSON object encoding of it has
"jsonrpc", "method" and "action", the last two carrying the same string; it has "tool" if
and only if the tool string is non-empty, "context" if and only if the context is present,
"params" if and only if params were supplied and "id" if and only if the identifier is
present; and the encoding exists whenever context and identifier are absent or
serialisable. The hypothesis on `marshal` is that `json.Marshal` does not return an empty
text for params. -/
theorem MCPRequest_encode_keys {α ε : Type} (marshal : α → Except ε RawMessage)
    (compact : RawMessage → Except ε RawMessage) (action : MCPAction)
    (params context : Option α) (tool : String) (id : Option α) (r : MCPRequest α)
    (hb : NewMCPRequest marshal action params context tool id = .ok r)
    (hne : ∀ v data, params = some v → marshal v = .ok data → data ≠ "") :
    (∀ ms, r.encode marshal compact = .ok ms →
      ("jsonrpc", JValue.string "2.0") ∈ ms ∧
      ("method", JValue.string action) ∈ ms ∧ ("action", JValue.string action) ∈ ms ∧
      ("tool" ∈ ms.map Prod.fst ↔ tool ≠ "") ∧
      ("context" ∈ ms.map Prod.fst ↔ context ≠ none) ∧
      ("params" ∈ ms.map Prod.fst ↔ params ≠ none) ∧
      ("id" ∈ ms.map Prod.fst ↔ id ≠ none)) ∧
    ((∀ v data, params = some v → marshal v = .ok data → ∃ c, compact data = .ok c) →
      (∀ v, context = some v → ∃ t, marshal v = .ok t) →
      (∀ v, id = some v → ∃ t, marshal v = .ok t) →
      ∃ ms, r.encode marshal compact = .ok ms) := by
  have hP : (params = none ∧ r.Params = none) ∨
      ∃ v data, params = some v ∧ marshal v = .ok data ∧ r.Params = some data := by
    rcases NewMCPRequest_ok_inv marshal action params context tool id r hb with
      ⟨hp, hr⟩ | ⟨v, data, hp, hd, hr⟩
    · exact Or.inl ⟨hp, by rw [hr]⟩
    · exact Or.inr ⟨v, data, hp, hd, by rw [hr]⟩
  have hF : r.JSONRPC = "2.0" ∧ r.Method = action ∧ r.Action = action ∧
      r.Context = context ∧ r.Tool = tool ∧ r.ID = id := by
    rcases NewMCPRequest_ok_inv marshal action params context tool id r hb with
      ⟨_, hr⟩ | ⟨_, _, _, _, hr⟩ <;> rw [hr] <;> exact ⟨rfl, rfl, rfl, rfl, rfl, rfl⟩
  obtain ⟨hJ, hM, hA, hC, hT, hI⟩ := hF
  constructor
  · intro ms h
    obtain ⟨ps, cs, ids, h1, h2, h3, hms⟩ := MCPRequest_encode_inv marshal compact r ms h
    rw [hJ, hM, hA, hT] at hms
    rw [hC] at h2
    rw [hI] at h3
    subst hms
    have hps : (ps = [] ∧ params = none) ∨ (∃ c, ps = [("params", JValue.raw c)] ∧
        params ≠ none) := by
      rcases omitemptyRaw_inv compact "params" r.Params ps h1 with
        ⟨hps, hr⟩ | ⟨b, c, hrb, _, _, hps⟩
      · rcases hP with ⟨hp, _⟩ | ⟨v, data, hp, hd, hrp⟩
        · exact Or.inl ⟨hps, hp⟩
        · rw [hrp] at hr
          rcases hr with hr | hr
          · cases hr
          · exact absurd (Option.some.inj hr) (hne v data hp hd)
      · rcases hP with ⟨_, hrn⟩ | ⟨v, data, hp, _, _⟩
        · rw [hrn] at hrb
          cases hrb
        · exact Or.inr ⟨c, hps, by rw [hp]; simp⟩
    by_cases ht : tool = "" <;>
    rcases hps with ⟨hps, hp⟩ | ⟨c, hps, hp⟩ <;>
    rcases omitemptyIface_inv marshal "context" context cs h2 with
      ⟨hcs, hc⟩ | ⟨z, u, hc, _, hcs⟩ <;>
    rcases omitemptyIface_inv marshal "id" id ids h3 with ⟨his, hi⟩ | ⟨y, t, hi, _, his⟩ <;>
    subst hps hcs his <;> simp [omitemptyString, ht, hp, hc, hi]
  · intro hcmp hctx hid
    obtain ⟨ps, hps⟩ := omitemptyRaw_ok_of compact "params" r.Params (by
      intro b hb _
      rcases hP with ⟨_, hrn⟩ | ⟨v, data, hp, hd, hrp⟩
      · rw [hrn] at hb
        cases hb
      · rw [hrp] at hb
        cases hb
        exact hcmp v b hp hd)
    obtain ⟨cs, hcs⟩ := omitemptyIface_ok_of marshal "context" r.Context (by rw [hC]; exact hctx)
    obtain ⟨ids, his⟩ := omitemptyIface_ok_of marshal "id" r.ID (by rw [hI]; exact hid)
    exact ⟨_, by simp [MCPRequest.encode, hps, hcs, his]; rfl⟩

/-- Encoding a Request and decoding the object again: when the encoder accepts the Params
and the identifier is serialisable and decodable, both steps succeed; JSONRPC and Method
are kept, Params is nil afterwards exactly when it was nil or empty, and the identifier
becomes nil when it was nil or encoded as `null`, and the decoded text otherwise. -/
theorem Request_roundtrip {α β ε : Type} (marshal : α → Except ε RawMessage)
    (compact : RawMessage → Except ε RawMessage) (unmarshal : RawMessage → Option β)
    (r : Request α)
    (hcmp : ∀ b, r.Params = some b → b ≠ "" → ∃ c, compact b = .ok c)
    (hid : ∀ v, r.ID = some v →
      ∃ t, marshal v = .ok t ∧ (t = "null" ∨ ∃ b, unmarshal t = some b)) :
    ∃ ms q, r.encode marshal compact = .ok ms ∧ Request.decode unmarshal ms = some q ∧
      q.JSONRPC = r.JSONRPC ∧ q.Method = r.Method ∧
      (q.Params = none ↔ (r.Params = none ∨ r.Params = some "")) ∧
      (r.ID = none → q.ID = none) ∧
      (∀ v t, r.ID = some v → marshal v = .ok t →
        q.ID = if t = "null" then none else unmarshal t) := by
  obtain ⟨j, m, p, i⟩ := r
  obtain ⟨ps, hps⟩ := omitemptyRaw_ok_of compact "params" p hcmp
  have hps2 := omitemptyRaw_inv compact "params" p ps hps
  cases i with
  | none =>
    rcases hps2 with ⟨hp, hr⟩ | ⟨b, c, hr, hb, _, hp⟩
    · subst hp
      refine ⟨_, _, by simp [Request.encode, hps, omitemptyIface]; rfl,
        by simp [Request.decode, fieldString, fieldRaw, fieldIface, List.lookup]; rfl,
        rfl, rfl, ?_, fun _ => rfl, ?_⟩
      · simpa using hr
      · intro v t hv
        cases hv
    · subst hp
      refine ⟨_, _, by simp [Request.encode, hps, omitemptyIface]; rfl,
        by simp [Request.decode, fieldString, fieldRaw, fieldIface, List.lookup]; rfl,
        rfl, rfl, ?_, fun _ => rfl, ?_⟩
      · subst hr
        simp [hb]
      · intro v t hv
        cases hv
  | some v =>
    obtain ⟨t, ht, hdec⟩ := hid v rfl
    by_cases hn : t = "null"
    · rcases hps2 with ⟨hp, hr⟩ | ⟨b, c, hr, hb, _, hp⟩
      · subst hp
        refine ⟨_, _, by simp [Request.encode, hps, omitemptyIface, ht]; rfl,
          by simp [Request.decode, fieldString, fieldRaw, fieldIface, List.lookup, hn]; rfl,
          rfl, rfl, ?_, fun h => (by cases h), ?_⟩
        · simpa using hr
        · intro w u hw hu
          cases hw
          rw [ht] at hu
          cases hu
          simp [hn]
      · subst hp
        refine ⟨_, _, by simp [Request.encode, hps, omitemptyIface, ht]; rfl,
          by simp [Request.decode, fieldString, fieldRaw, fieldIface, List.lookup, hn]; rfl,
          rfl, rfl, ?_, fun h => (by cases h), ?_⟩
        · subst hr
          simp [hb]
        · intro w u hw hu
          cases hw
          rw [ht] at hu
          cases hu
          simp [hn]
    · obtain ⟨d, hd⟩ : ∃ d, unmarshal t = some d := by
        rcases hdec with h | h
        · exact absurd h hn
        · exact h
      rcases hps2 with ⟨hp, hr⟩ | ⟨b, c, hr, hb, _, hp⟩
      · subst hp
        refine ⟨_, _, by simp [Request.encode, hps, omitemptyIface, ht]; rfl,
          by simp [Request.decode, fieldString, fieldRaw, fieldIface, List.lookup, hn, hd]; rfl,
          rfl, rfl, ?_, fun h => (by cases h), ?_⟩
        · simpa using hr
        · intro w u hw hu
          cases hw
          rw [ht] at hu
          cases hu
          simp [hn, hd]
      · subst hp
        refine ⟨_, _, by simp [Request.encode, hps, omitemptyIface, ht]; rfl,
          by simp [Request.decode, fieldString, fieldRaw, fieldIface, List.lookup, hn, hd]; rfl,
          rfl, rfl, ?_, fun h => (by cases h), ?_⟩
        · subst hr
          simp [hb]
        · intro w u hw hu
          cases hw
          rw [ht] at hu
          cases hu
          simp [hn, hd]

/-- A member list written by `omitemptyRaw` holds no key other than its own. -/
theorem omitemptyRaw_lookup_ne {ε : Type} (compact : RawMessage → Except ε RawMessage)
    (name : String) (m : Option RawMessage) (ps : List (String × JValue))
    (h : omitemptyRaw compact name m = .ok ps) (k : String) (hk : (k == name) = false) :
    ps.lookup k = none := by
  rcases omitemptyRaw_inv compact name m ps h with ⟨hp, _⟩ | ⟨b, c, _, _, _, hp⟩ <;>
    simp [hp, List.lookup, hk]

/-- A member list written by `omitemptyIface` holds no key other than its own. -/
theorem omitemptyIface_lookup_ne {α ε : Type} (marshal : α → Except ε RawMessage)
    (name : String) (v : Option α) (ms : List (String × JValue))
    (h : omitemptyIface marshal name v = .ok ms) (k : String) (hk : (k == name) = false) :
    ms.lookup k = none := by
  rcases omitemptyIface_inv marshal name v ms h with ⟨hp, _⟩ | ⟨x, t, _, _, hp⟩ <;>
    simp [hp, List.lookup, hk]

/-- A member list written by `omitemptyError` holds no key other than its own. -/
theorem omitemptyError_lookup_ne {ε : Type} (compact : RawMessage → Except ε RawMessage)
    (name : String) (e : Option Error) (ms : List (String × JValue))
    (h : omitemptyError compact name e = .ok ms) (k : String) (hk : (k == name) = false) :
    ms.lookup k = none := by
  rcases omitemptyError_inv compact name e ms h with ⟨hp, _⟩ | ⟨x, es, _, _, hp⟩ <;>
    simp [hp, List.lookup, hk]

/-- A member list written by `omitemptyString` holds no key other than its own. -/
theorem omitemptyString_lookup_ne (name s k : String) (hk : (k == name) = false) :
    (omitemptyString name s).lookup k = none := by
  unfold omitemptyString
  split <;> simp [List.lookup, hk]

/-- A RawMessage field read back from what `omitemptyRaw` wrote: nil exactly when the
field was nil or empty. -/
theorem omitemptyRaw_lookup {ε : Type} (compact : RawMessage → Except ε RawMessage)
    (name : String) (m : Option RawMessage) (ps : List (String × JValue))
    (h : omitemptyRaw compact name m = .ok ps) :
    (ps.lookup name = none ∧ (m = none ∨ m = some "")) ∨
    (∃ c, ps.lookup name = some (.raw c) ∧ m ≠ none ∧ m ≠ some "") := by
  rcases omitemptyRaw_inv compact name m ps h with ⟨hp, hm⟩ | ⟨b, c, hm, hb, _, hp⟩
  · exact Or.inl ⟨by simp [hp], hm⟩
  · refine Or.inr ⟨c, by simp [hp, List.lookup], by simp [hm], ?_⟩
    rw [hm]
    intro hcon
    exact hb (Option.some.inj hcon)

/-- An Error object read back: decoding what `Error.encode` wrote succeeds. -/
theorem Error_roundtrip {ε : Type} (compact : RawMessage → Except ε RawMessage)
    (x : Error) (es : List (String × JValue)) (h : x.encode compact = .ok es) :
    ∃ y, Error.decode es = some y ∧ y.Code = x.Code ∧ y.Message = x.Message := by
  unfold Error.encode at h
  cases hd : omitemptyRaw compact "data" x.Data with
  | error err => simp [hd] at h
  | ok ds =>
    simp only [hd, Except.ok.injEq] at h
    subst h
    rcases omitemptyRaw_lookup compact "data" x.Data ds hd with ⟨hl, _⟩ | ⟨c, hl, _, _⟩
    · exact ⟨{ Code := x.Code, Message := x.Message, Data := none },
        by simp [Error.decode, fieldInt, fieldString, fieldRaw, List.lookup, hl], rfl, rfl⟩
    · exact ⟨{ Code := x.Code, Message := x.Message, Data := some c },
        by simp [Error.decode, fieldInt, fieldString, fieldRaw, List.lookup, hl], rfl, rfl⟩

/-- An Error pointer read back from what `omitemptyError` wrote: nil exactly when it was
nil. -/
theorem omitemptyError_lookup {ε : Type} (compact : RawMessage → Except ε RawMessage)
    (name : String) (e : Option Error) (ms : List (String × JValue))
    (h : omitemptyError compact name e = .ok ms) :
    (ms.lookup name = none ∧ e = none) ∨
    (∃ es y, ms.lookup name = some (.object es) ∧ Error.decode es = some y ∧ e ≠ none) := by
  rcases omitemptyError_inv compact name e ms h with ⟨hp, he⟩ | ⟨x, es, he, hx, hp⟩
  · exact Or.inl ⟨by simp [hp], he⟩
  · obtain ⟨y, hy, _⟩ := Error_roundtrip compact x es hx
    exact Or.inr ⟨es, y, by simp [hp, List.lookup], hy, by simp [he]⟩

/-- A string member read back by `fieldString`. -/
theorem fieldString_member (pre post : List (String × JValue)) (name s : String)
    (hpre : pre.lookup name = none) :
    fieldString (pre ++ [(name, .string s)] ++ post) name = some s := by
  simp [fieldString, List.lookup_append, hpre, List.lookup]

/-- A string field tagged `omitempty` read back by `fieldString`: an omitted empty string
is decoded as the zero value, the empty string. -/
theorem fieldString_omitempty (pre post : List (String × JValue)) (name s : String)
    (hpre : pre.lookup name = none) (hpost : post.lookup name = none) :
    fieldString (pre ++ omitemptyString name s ++ post) name = some s := by
  by_cases hs : s = ""
  · simp [fieldString, omitemptyString, List.lookup_append, hpre, hpost, hs]
  · simp [fieldString, omitemptyString, List.lookup_append, hpre, hs, List.lookup]

/-- A RawMessage field tagged `omitempty` read back by `fieldRaw`: nil exactly when the
field was nil or empty. -/
theorem fieldRaw_omitempty {ε : Type} (compact : RawMessage → Except ε RawMessage)
    (pre post ps : List (String × JValue)) (name : String) (m : Option RawMessage)
    (h : omitemptyRaw compact name m = .ok ps)
    (hpre : pre.lookup name = none) (hpost : post.lookup name = none) :
    ∃ o, fieldRaw (pre ++ ps ++ post) name = some o ∧
      (o = none ↔ (m = none ∨ m = some "")) := by
  rcases omitemptyRaw_lookup compact name m ps h with ⟨hl, hm⟩ | ⟨c, hl, hm1, hm2⟩
  · exact ⟨none, by simp [fieldRaw, List.lookup_append, hpre, hpost, hl], by simp [hm]⟩
  · exact ⟨some c, by simp [fieldRaw, List.lookup_append, hpre, hl], by simp [hm1, hm2]⟩

/-- An Error field tagged `omitempty` read back by `fieldError`: nil exactly when the
pointer was nil. -/
theorem fieldError_omitempty {ε : Type} (compact : RawMessage → Except ε RawMessage)
    (pre post es : List (String × JValue)) (name : String) (e : Option Error)
    (h : omitemptyError compact name e = .ok es)
    (hpre : pre.lookup name = none) (hpost : post.lookup name = none) :
    ∃ o, fieldError (pre ++ es ++ post) name = some o ∧ (o = none ↔ e = none) := by
  rcases omitemptyError_lookup compact name e es h with ⟨hl, he⟩ | ⟨xs, y, hl, hy, he⟩
  · exact ⟨none, by simp [fieldError, List.lookup_append, hpre, hpost, hl], by simp [he]⟩
  · exact ⟨some y, by simp [fieldError, List.lookup_append, hpre, hl, hy], by simp [he]⟩

/-- An interface field tagged `omitempty` read back by `fieldIface`: nil when it was nil
or was written as `null`, otherwise the value decoded from its text. -/
theorem fieldIface_omitempty {α β ε : Type} (marshal : α → Except ε RawMessage)
    (unmarshal : RawMessage → Option β) (pre post ms : List (String × JValue))
    (name : String) (v : Option α) (h : omitemptyIface marshal name v = .ok ms)
    (hv : ∀ x, v = some x → ∃ t, marshal x = .ok t ∧ (t = "null" ∨ ∃ b, unmarshal t = some b))
    (hpre : pre.lookup name = none) (hpost : post.lookup name = none) :
    ∃ o, fieldIface unmarshal (pre ++ ms ++ post) name = some o ∧
      (v = none → o = none) ∧
      (∀ x t, v = some x → marshal x = .ok t → o = if t = "null" then none else unmarshal t) := by
  rcases omitemptyIface_inv marshal name v ms h with ⟨hp, hn⟩ | ⟨x, t, hx, ht, hp⟩
  · refine ⟨none, by simp [fieldIface, List.lookup_append, hpre, hpost, hp], fun _ => rfl, ?_⟩
    intro x t hx
    rw [hn] at hx
    cases hx
  · obtain ⟨u, hu, hdec⟩ := hv x hx
    rw [ht] at hu
    cases hu
    by_cases hnull : t = "null"
    · refine ⟨none, by simp [fieldIface, List.lookup_append, hpre, hp, List.lookup, hnull],
        fun _ => rfl, ?_⟩
      intro y w hy hw
      rw [hx] at hy
      cases hy
      rw [ht] at hw
      cases hw
      simp [hnull]
    · obtain ⟨b, hb⟩ : ∃ b, unmarshal t = some b := by
        rcases hdec with hd | hd
        · exact absurd hd hnull
        · exact hd
      refine ⟨some b, by simp [fieldIface, List.lookup_append, hpre, hp, List.lookup, hnull, hb],
        fun hcon => (by rw [hx] at hcon; cases hcon), ?_⟩
      intro y w hy hw
      rw [hx] at hy
      cases hy
      rw [ht] at hw
      cases hw
      simp [hnull, hb]

/-- An interface field without `omitempty` read back by `fieldIface`: nil when it was nil
or was written as `null`, otherwise the value decoded from its text. -/
theorem fieldIface_value {α β ε : Type} (marshal : α → Except ε RawMessage)
    (unmarshal : RawMessage → Option β) (pre post : List (String × JValue))
    (name : String) (v : Option α) (j : JValue) (h : ifaceValue marshal v = .ok j)
    (hv : ∀ x, v = some x → ∃ t, marshal x = .ok t ∧ (t = "null" ∨ ∃ b, unmarshal t = some b))
    (hpre : pre.lookup name = none) :
    ∃ o, fieldIface unmarshal (pre ++ [(name, j)] ++ post) name = some o ∧
      (v = none → o = none) ∧
      (∀ x t, v = some x → marshal x = .ok t → o = if t = "null" then none else unmarshal t) := by
  rcases ifaceValue_inv marshal v j h with ⟨hj, hn⟩ | ⟨x, t, hx, ht, hj⟩
  · refine ⟨none, by simp [fieldIface, List.lookup_append, hpre, hj, List.lookup],
      fun _ => rfl, ?_⟩
    intro x t hx
    rw [hn] at hx
    cases hx
  · obtain ⟨u, hu, hdec⟩ := hv x hx
    rw [ht] at hu
    cases hu
    by_cases hnull : t = "null"
    · refine ⟨none, by simp [fieldIface, List.lookup_append, hpre, hj, List.lookup, hnull],
        fun _ => rfl, ?_⟩
      intro y w hy hw
      rw [hx] at hy
      cases hy
      rw [ht] at hw
      cases hw
      simp [hnull]
    · obtain ⟨b, hb⟩ : ∃ b, unmarshal t = some b := by
        rcases hdec with hd | hd
        · exact absurd hd hnull
        · exact hd
      refine ⟨some b, by simp [fieldIface, List.lookup_append, hpre, hj, List.lookup, hnull, hb],
        fun hcon => (by rw [hx] at hcon; cases hcon), ?_⟩
      intro y w hy hw
      rw [hx] at hy
      cases hy
      rw [ht] at hw
      cases hw
      simp [hnull, hb]

/-- Encoding a Response and decoding the object again: when the encoder accepts Result and
the Data of the Error, and the identifier is serialisable and decodable, both steps
succeed; JSONRPC is kept, Result is nil afterwards exactly when it was nil or empty, Error
exactly when it was nil, and the identifier becomes nil when it was nil or encoded as
`null`, and the decoded text otherwise. -/
theorem Response_roundtrip {α β ε : Type} (marshal : α → Except ε RawMessage)
    (compact : RawMessage → Except ε RawMessage) (unmarshal : RawMessage → Option β)
    (r : Response α)
    (hres : ∀ b, r.Result = some b → b ≠ "" → ∃ c, compact b = .ok c)
    (herr : ∀ x b, r.Error = some x → x.Data = some b → b ≠ "" → ∃ c, compact b = .ok c)
    (hid : ∀ v, r.ID = some v →
      ∃ t, marshal v = .ok t ∧ (t = "null" ∨ ∃ b, unmarshal t = some b)) :
    ∃ ms q, r.encode marshal compact = .ok ms ∧ Response.decode unmarshal ms = some q ∧
      q.JSONRPC = r.JSONRPC ∧
      (q.Result = none ↔ (r.Result = none ∨ r.Result = some "")) ∧
      (q.Error = none ↔ r.Error = none) ∧
      (r.ID = none → q.ID = none) ∧
      (∀ v t, r.ID = some v → marshal v = .ok t →
        q.ID = if t = "null" then none else unmarshal t) := by
  obtain ⟨rs, h1⟩ := omitemptyRaw_ok_of compact "result" r.Result hres
  obtain ⟨es, h2⟩ := omitemptyError_ok_of compact "error" r.Error herr
  obtain ⟨j, h3⟩ := ifaceValue_ok_of marshal r.ID
    (fun x hx => (hid x hx).elim fun t ht => ⟨t, ht.1⟩)
  have hrs_e := omitemptyRaw_lookup_ne compact "result" r.Result rs h1 "error" rfl
  have hrs_i := omitemptyRaw_lookup_ne compact "result" r.Result rs h1 "id" rfl
  have hes_r := omitemptyError_lookup_ne compact "error" r.Error es h2 "result" rfl
  have hes_i := omitemptyError_lookup_ne compact "error" r.Error es h2 "id" rfl
  have f1 := fieldString_member [] (rs ++ es ++ [("id", j)]) "jsonrpc" r.JSONRPC rfl
  obtain ⟨o2, f2, p2⟩ := fieldRaw_omitempty compact [("jsonrpc", .string r.JSONRPC)]
    (es ++ [("id", j)]) rs "result" r.Result h1 (by simp [List.lookup])
    (by simp [List.lookup_append, hes_r, List.lookup])
  obtain ⟨o3, f3, p3⟩ := fieldError_omitempty compact ([("jsonrpc", .string r.JSONRPC)] ++ rs)
    [("id", j)] es "error" r.Error h2 (by simp [List.lookup_append, hrs_e, List.lookup])
    (by simp [List.lookup])
  obtain ⟨o4, f4, p4, p5⟩ := fieldIface_value marshal unmarshal
    ([("jsonrpc", .string r.JSONRPC)] ++ rs ++ es) [] "id" r.ID j h3 hid
    (by simp [List.lookup_append, hrs_i, hes_i, List.lookup])
  simp only [List.append_assoc, List.cons_append, List.nil_append, List.append_nil] at f1 f2 f3 f4
  refine ⟨[("jsonrpc", .string r.JSONRPC)] ++ rs ++ es ++ [("id", j)],
    { JSONRPC := r.JSONRPC, Result := o2, Error := o3, ID := o4 }, ?_, ?_, rfl, p2, p3, p4, p5⟩
  · simp [Response.encode, h1, h2, h3]
  · simp only [List.append_assoc, List.cons_append, List.nil_append]
    simp [Response.decode, f1, f2, f3, f4]

/-- Encoding an MCPRequest and decoding the object again: when the encoder accepts Params
and the context and identifier are serialisable and decodable, both steps succeed;
JSONRPC, Method, Action and Tool are kept, Params is nil afterwards exactly when it was nil
or empty, and context and identifier become nil when they were nil or encoded as `null`,
and the decoded text otherwise. -/
theorem MCPRequest_roundtrip {α β ε : Type} (marshal : α → Except ε RawMessage)
    (compact : RawMessage → Except ε RawMessage) (unmarshal : RawMessage → Option β)
    (r : MCPRequest α)
    (hcmp : ∀ b, r.Params = some b → b ≠ "" → ∃ c, compact b = .ok c)
    (hctx : ∀ v, r.Context = some v →
      ∃ t, marshal v = .ok t ∧ (t = "null" ∨ ∃ b, unmarshal t = some b))
    (hid : ∀ v, r.ID = some v →
      ∃ t, marshal v = .ok t ∧ (t = "null" ∨ ∃ b, unmarshal t = some b)) :
    ∃ ms q, r.encode marshal compact = .ok ms ∧ MCPRequest.decode unmarshal ms = some q ∧
      q.JSONRPC = r.JSONRPC ∧ q.Method = r.Method ∧ q.Action = r.Action ∧ q.Tool = r.Tool ∧
      (q.Params = none ↔ (r.Params = none ∨ r.Params = some "")) ∧
      (r.Context = none → q.Context = none) ∧
      (∀ v t, r.Context = some v → marshal v = .ok t →
        q.Context = if t = "null" then none else unmarshal t) ∧
      (r.ID = none → q.ID = none) ∧
      (∀ v t, r.ID = some v → marshal v = .ok t →
        q.ID = if t = "null" then none else unmarshal t) := by
  obtain ⟨ps, h1⟩ := omitemptyRaw_ok_of compact "params" r.Params hcmp
  obtain ⟨cs, h2⟩ := omitemptyIface_ok_of marshal "context" r.Context
    (fun x hx => (hctx x hx).elim fun t ht => ⟨t, ht.1⟩)
  obtain ⟨ids, h3⟩ := omitemptyIface_ok_of marshal "id" r.ID
    (fun x hx => (hid x hx).elim fun t ht => ⟨t, ht.1⟩)
  have hps_c := omitemptyRaw_lookup_ne compact "params" r.Params ps h1 "context" rfl
  have hps_t := omitemptyRaw_lookup_ne compact "params" r.Params ps h1 "tool" rfl
  have hps_i := omitemptyRaw_lookup_ne compact "params" r.Params ps h1 "id" rfl
  have hcs_p := omitemptyIface_lookup_ne marshal "context" r.Context cs h2 "params" rfl
  have hcs_t := omitemptyIface_lookup_ne marshal "context" r.Context cs h2 "tool" rfl
  have hcs_i := omitemptyIface_lookup_ne marshal "context" r.Context cs h2 "id" rfl
  have hts_p := omitemptyString_lookup_ne "tool" r.Tool "params" rfl
  have hts_c := omitemptyString_lookup_ne "tool" r.Tool "context" rfl
  have hts_i := omitemptyString_lookup_ne "tool" r.Tool "id" rfl
  have his_p := omitemptyIface_lookup_ne marshal "id" r.ID ids h3 "params" rfl
  have his_c := omitemptyIface_lookup_ne marshal "id" r.ID ids h3 "context" rfl
  have his_t := omitemptyIface_lookup_ne marshal "id" r.ID ids h3 "tool" rfl
  have f1 := fieldString_member []
    ([("method", JValue.string r.Method), ("action", JValue.string r.Action)] ++ ps ++ cs
      ++ omitemptyString "tool" r.Tool ++ ids) "jsonrpc" r.JSONRPC rfl
  have f2 := fieldString_member [("jsonrpc", JValue.string r.JSONRPC)]
    ([("action", JValue.string r.Action)] ++ ps ++ cs ++ omitemptyString "tool" r.Tool ++ ids)
    "method" r.Method (by simp [List.lookup])
  have f3 := fieldString_member
    [("jsonrpc", JValue.string r.JSONRPC), ("method", JValue.string r.Method)]
    (ps ++ cs ++ omitemptyString "tool" r.Tool ++ ids) "action" r.Action
    (by simp [List.lookup])
  obtain ⟨o4, f4, p4⟩ := fieldRaw_omitempty compact
    [("jsonrpc", JValue.string r.JSONRPC), ("method", JValue.string r.Method),
      ("action", JValue.string r.Action)]
    (cs ++ omitemptyString "tool" r.Tool ++ ids) ps "params" r.Params h1
    (by simp [List.lookup]) (by simp [List.lookup_append, hcs_p, hts_p, his_p])
  obtain ⟨o5, f5, p5, p5b⟩ := fieldIface_omitempty marshal unmarshal
    ([("jsonrpc", JValue.string r.JSONRPC), ("method", JValue.string r.Method),
      ("action", JValue.string r.Action)] ++ ps)
    (omitemptyString "tool" r.Tool ++ ids) cs "context" r.Context h2 hctx
    (by simp [List.lookup_append, hps_c, List.lookup])
    (by simp [List.lookup_append, hts_c, his_c])
  have f6 := fieldString_omitempty
    ([("jsonrpc", JValue.string r.JSONRPC), ("method", JValue.string r.Method),
      ("action", JValue.string r.Action)] ++ ps ++ cs) ids "tool" r.Tool
    (by simp [List.lookup_append, hps_t, hcs_t, List.lookup]) his_t
  obtain ⟨o7, f7, p7, p7b⟩ := fieldIface_omitempty marshal unmarshal
    ([("jsonrpc", JValue.string r.JSONRPC), ("method", JValue.string r.Method),
      ("action", JValue.string r.Action)] ++ ps ++ cs ++ omitemptyString "tool" r.Tool)
    [] ids "id" r.ID h3 hid
    (by simp [List.lookup_append, hps_i, hcs_i, hts_i, List.lookup]) rfl
  simp only [List.append_assoc, List.cons_append, List.nil_append, List.append_nil]
    at f1 f2 f3 f4 f5 f6 f7
  refine ⟨[("jsonrpc", .string r.JSONRPC), ("method", .string r.Method),
      ("action", .string r.Action)] ++ ps ++ cs ++ omitemptyString "tool" r.Tool ++ ids,
    { JSONRPC := r.JSONRPC, Method := r.Method, Action := r.Action, Params := o4,
      Context := o5, Tool := r.Tool, ID := o7 }, ?_, ?_, rfl, rfl, rfl, rfl, p4, p5, p5b,
    p7, p7b⟩
  · simp [MCPRequest.encode, h1, h2, h3]
  · simp only [List.append_assoc, List.cons_append, List.nil_append]
    simp [MCPRequest.decode, f1, f2, f3, f4, f5, f6, f7]

/-- Encoding an MCPResponse and decoding the object again: when the encoder accepts Data
and the Data of the Error, and the context and identifier are serialisable and decodable,
both steps succeed; JSONRPC and Status are kept, Data is nil afterwards exactly when it was
nil or empty, Error exactly when it was nil, and context and identifier become nil when
they were nil or encoded as `null`, and the decoded text otherwise. -/
theorem MCPResponse_roundtrip {α β ε : Type} (marshal : α → Except ε RawMessage)
    (compact : RawMessage → Except ε RawMessage) (unmarshal : RawMessage → Option β)
    (r : MCPResponse α)
    (hdat : ∀ b, r.Data = some b → b ≠ "" → ∃ c, compact b = .ok c)
    (herr : ∀ x b, r.Error = some x → x.Data = some b → b ≠ "" → ∃ c, compact b = .ok c)
    (hctx : ∀ v, r.Context = some v →
      ∃ t, marshal v = .ok t ∧ (t = "null" ∨ ∃ b, unmarshal t = some b))
    (hid : ∀ v, r.ID = some v →
      ∃ t, marshal v = .ok t ∧ (t = "null" ∨ ∃ b, unmarshal t = some b)) :
    ∃ ms q, r.encode marshal compact = .ok ms ∧ MCPResponse.decode unmarshal ms = some q ∧
      q.JSONRPC = r.JSONRPC ∧ q.Status = r.Status ∧
      (q.Data = none ↔ (r.Data = none ∨ r.Data = some "")) ∧
      (q.Error = none ↔ r.Error = none) ∧
      (r.Context = none → q.Context = none) ∧
      (∀ v t, r.Context = some v → marshal v = .ok t →
        q.Context = if t = "null" then none else unmarshal t) ∧
      (r.ID = none → q.ID = none) ∧
      (∀ v t, r.ID = some v → marshal v = .ok t →
        q.ID = if t = "null" then none else unmarshal t) := by
  obtain ⟨ds, h1⟩ := omitemptyRaw_ok_of compact "data" r.Data hdat
  obtain ⟨es, h2⟩ := omitemptyError_ok_of compact "error" r.Error herr
  obtain ⟨cs, h3⟩ := omitemptyIface_ok_of marshal "context" r.Context
    (fun x hx => (hctx x hx).elim fun t ht => ⟨t, ht.1⟩)
  obtain ⟨j, h4⟩ := ifaceValue_ok_of marshal r.ID
    (fun x hx => (hid x hx).elim fun t ht => ⟨t, ht.1⟩)
  have hds_e := omitemptyRaw_lookup_ne compact "data" r.Data ds h1 "error" rfl
  have hds_c := omitemptyRaw_lookup_ne compact "data" r.Data ds h1 "context" rfl
  have hds_i := omitemptyRaw_lookup_ne compact "data" r.Data ds h1 "id" rfl
  have hes_d := omitemptyError_lookup_ne compact "error" r.Error es h2 "data" rfl
  have hes_c := omitemptyError_lookup_ne compact "error" r.Error es h2 "context" rfl
  have hes_i := omitemptyError_lookup_ne compact "error" r.Error es h2 "id" rfl
  have hcs_d := omitemptyIface_lookup_ne marshal "context" r.Context cs h3 "data" rfl
  have hcs_e := omitemptyIface_lookup_ne marshal "context" r.Context cs h3 "error" rfl
  have hcs_i := omitemptyIface_lookup_ne marshal "context" r.Context cs h3 "id" rfl
  have f1 := fieldString_member []
    ([("status", JValue.string r.Status)] ++ ds ++ es ++ cs ++ [("id", j)])
    "jsonrpc" r.JSONRPC rfl
  have f2 := fieldString_member [("jsonrpc", JValue.string r.JSONRPC)]
    (ds ++ es ++ cs ++ [("id", j)]) "status" r.Status (by simp [List.lookup])
  obtain ⟨o3, f3, p3⟩ := fieldRaw_omitempty compact
    [("jsonrpc", JValue.string r.JSONRPC), ("status", JValue.string r.Status)]
    (es ++ cs ++ [("id", j)]) ds "data" r.Data h1
    (by simp [List.lookup]) (by simp [List.lookup_append, hes_d, hcs_d, List.lookup])
  obtain ⟨o4, f4, p4⟩ := fieldError_omitempty compact
    ([("jsonrpc", JValue.string r.JSONRPC), ("status", JValue.string r.Status)] ++ ds)
    (cs ++ [("id", j)]) es "error" r.Error h2
    (by simp [List.lookup_append, hds_e, List.lookup])
    (by simp [List.lookup_append, hcs_e, List.lookup])
  obtain ⟨o5, f5, p5, p5b⟩ := fieldIface_omitempty marshal unmarshal
    ([("jsonrpc", JValue.string r.JSONRPC), ("status", JValue.string r.Status)] ++ ds ++ es)
    [("id", j)] cs "context" r.Context h3 hctx
    (by simp [List.lookup_append, hds_c, hes_c, List.lookup]) (by simp [List.lookup])
  obtain ⟨o6, f6, p6, p6b⟩ := fieldIface_value marshal unmarshal
    ([("jsonrpc", JValue.string r.JSONRPC), ("status", JValue.string r.Status)] ++ ds ++ es
      ++ cs) [] "id" r.ID j h4 hid
    (by simp [List.lookup_append, hds_i, hes_i, hcs_i, List.lookup])
  simp only [List.append_assoc, List.cons_append, List.nil_append, List.append_nil]
    at f1 f2 f3 f4 f5 f6
  refine ⟨[("jsonrpc", .string r.JSONRPC), ("status", .string r.Status)] ++ ds ++ es ++ cs
      ++ [("id", j)],
    { JSONRPC := r.JSONRPC, Status := r.Status, Data := o3, Error := o4, Context := o5,
      ID := o6 }, ?_, ?_, rfl, rfl, p3, p4, p5, p5b, p6, p6b⟩
  · simp [MCPResponse.encode, h1, h2, h3, h4]
  · simp only [List.append_assoc, List.cons_append, List.nil_append]
    simp [MCPResponse.decode, f1, f2, f3, f4, f5, f6]

/-- A natural number below `2 ^ k` has at most `k` binary digits. -/
theorem bitLength_le (fuel : Nat) : ∀ (a k : Nat), a < 2 ^ k → bitLength fuel a ≤ k := by
  induction fuel with
  | zero => intro a k _; simp [bitLength]
  | succ f ih =>
    intro a k h
    unfold bitLength
    split
    · exact Nat.zero_le k
    · rename_i ha
      cases k with
      | zero => simp at h; exact absurd h ha
      | succ k =>
        have h2 : a / 2 < 2 ^ k := by
          rw [Nat.pow_succ] at h
          omega
        have := ih (a / 2) k h2
        omega

/-- Rounding to float64 leaves every natural number up to `2 ^ 53` unchanged. -/
theorem roundFloat64_exact (a : Nat) (h : a ≤ 2 ^ 53) : roundFloat64 a = a := by
  rcases Nat.lt_or_ge a (2 ^ 53) with hlt | hge
  · have hb : bitLength 64 a - 53 = 0 := by
      have := bitLength_le 64 a 53 hlt
      omega
    simp [roundFloat64, hb, Nat.mod_one]
  · have ha : a = 2 ^ 53 := Nat.le_antisymm h hge
    subst ha
    decide

/-- Rounding to float64 leaves every integer of absolute value up to `2 ^ 53` unchanged. -/
theorem float64OfInt_exact (n : Int) (hlo : -(2 ^ 53) ≤ n) (hhi : n ≤ 2 ^ 53) :
    float64OfInt n = n := by
  have ha : n.natAbs ≤ 2 ^ 53 := by omega
  unfold float64OfInt
  rw [roundFloat64_exact n.natAbs ha]
  split <;> omega

/-- An interface field whose value, when present, is not encoded as `null` and can be
decoded is nil after the round trip exactly when it was nil before. -/
theorem iface_presence {α β ε : Type} (marshal : α → Except ε RawMessage)
    (unmarshal : RawMessage → Option β) (v : Option α) (o : Option β)
    (hv : ∀ x, v = some x → ∃ t, marshal x = .ok t ∧ t ≠ "null" ∧ ∃ b, unmarshal t = some b)
    (p1 : v = none → o = none)
    (p2 : ∀ x t, v = some x → marshal x = .ok t → o = if t = "null" then none else unmarshal t) :
    o = none ↔ v = none := by
  constructor
  · intro ho
    cases v with
    | none => rfl
    | some x =>
      obtain ⟨t, ht, hn, b, hb⟩ := hv x rfl
      have := p2 x t rfl ht
      rw [ho] at this
      simp [hn, hb] at this
  · exact p1

/-- A RawMessage field that is not empty is nil after the round trip exactly when it was
nil before. -/
theorem raw_presence (m o : Option RawMessage) (hm : m ≠ some "")
    (p : o = none ↔ (m = none ∨ m = some "")) : o = none ↔ m = none := by
  rw [p]
  constructor
  · intro h
    rcases h with h | h
    · exact h
    · exact absurd h hm
  · exact Or.inl

/-- Round trip of a Request whose Params is not empty and whose identifier, when present,
is not encoded as `null`: encoding and decoding succeed and keep JSONRPC, Method, the
presence of Params and of the identifier, hence whether it is a notification. -/
theorem Request_presence {α β ε : Type} (marshal : α → Except ε RawMessage)
    (compact : RawMessage → Except ε RawMessage) (unmarshal : RawMessage → Option β)
    (r : Request α)
    (hP : ∀ b, r.Params = some b → b ≠ "" ∧ ∃ c, compact b = .ok c)
    (hid : ∀ v, r.ID = some v →
      ∃ t, marshal v = .ok t ∧ t ≠ "null" ∧ ∃ b, unmarshal t = some b) :
    ∃ ms q, r.encode marshal compact = .ok ms ∧ Request.decode unmarshal ms = some q ∧
      q.JSONRPC = r.JSONRPC ∧ q.Method = r.Method ∧
      (q.Params = none ↔ r.Params = none) ∧ (q.ID = none ↔ r.ID = none) ∧
      q.IsNotification = r.IsNotification := by
  obtain ⟨ms, q, h1, h2, h3, h4, h5, h6, h7⟩ := Request_roundtrip marshal compact unmarshal r
    (fun b hb _ => (hP b hb).2)
    (fun x hx => (hid x hx).elim fun t ht => ⟨t, ht.1, Or.inr ht.2.2⟩)
  have hi := iface_presence marshal unmarshal r.ID q.ID hid h6 h7
  refine ⟨ms, q, h1, h2, h3, h4,
    raw_presence r.Params q.Params (fun h => (hP "" h).1 rfl) h5, hi, ?_⟩
  cases hq : q.ID <;> cases hr : r.ID <;> simp [Request.IsNotification, hq, hr] <;>
    simp [hq, hr] at hi

/-- Round trip of a Response whose Result is not empty and whose identifier, when
present, is not encoded as `null`: encoding and decoding succeed and keep JSONRPC and the
presence of Result, Error and the identifier. -/
theorem Response_presence {α β ε : Type} (marshal : α → Except ε RawMessage)
    (compact : RawMessage → Except ε RawMessage) (unmarshal : RawMessage → Option β)
    (r : Response α)
    (hR : ∀ b, r.Result = some b → b ≠ "" ∧ ∃ c, compact b = .ok c)
    (herr : ∀ x b, r.Error = some x → x.Data = some b → b ≠ "" → ∃ c, compact b = .ok c)
    (hid : ∀ v, r.ID = some v →
      ∃ t, marshal v = .ok t ∧ t ≠ "null" ∧ ∃ b, unmarshal t = some b) :
    ∃ ms q, r.encode marshal compact = .ok ms ∧ Response.decode unmarshal ms = some q ∧
      q.JSONRPC = r.JSONRPC ∧ (q.Result = none ↔ r.Result = none) ∧
      (q.Error = none ↔ r.Error = none) ∧ (q.ID = none ↔ r.ID = none) := by
  obtain ⟨ms, q, h1, h2, h3, h4, h5, h6, h7⟩ := Response_roundtrip marshal compact unmarshal r
    (fun b hb _ => (hR b hb).2) herr
    (fun x hx => (hid x hx).elim fun t ht => ⟨t, ht.1, Or.inr ht.2.2⟩)
  exact ⟨ms, q, h1, h2, h3, raw_presence r.Result q.Result (fun h => (hR "" h).1 rfl) h4, h5,
    iface_presence marshal unmarshal r.ID q.ID hid h6 h7⟩

/-- Round trip of an MCPRequest whose Params is not empty and whose context and
identifier, when present, are not encoded as `null`: encoding and decoding succeed and keep
JSONRPC, Method, Action, Tool and the presence of Params, context and identifier. -/
theorem MCPRequest_presence {α β ε : Type} (marshal : α → Except ε RawMessage)
    (compact : RawMessage → Except ε RawMessage) (unmarshal : RawMessage → Option β)
    (r : MCPRequest α)
    (hP : ∀ b, r.Params = some b → b ≠ "" ∧ ∃ c, compact b = .ok c)
    (hctx : ∀ v, r.Context = some v →
      ∃ t, marshal v = .ok t ∧ t ≠ "null" ∧ ∃ b, unmarshal t = some b)
    (hid : ∀ v, r.ID = some v →
      ∃ t, marshal v = .ok t ∧ t ≠ "null" ∧ ∃ b, unmarshal t = some b) :
    ∃ ms q, r.encode marshal compact = .ok ms ∧ MCPRequest.decode unmarshal ms = some q ∧
      q.JSONRPC = r.JSONRPC ∧ q.Method = r.Method ∧ q.Action = r.Action ∧ q.Tool = r.Tool ∧
      (q.Params = none ↔ r.Params = none) ∧ (q.Context = none ↔ r.Context = none) ∧
      (q.ID = none ↔ r.ID = none) := by
  obtain ⟨ms, q, h1, h2, h3, h4, h5, h6, h7, h8, h9, h10, h11⟩ :=
    MCPRequest_roundtrip marshal compact unmarshal r (fun b hb _ => (hP b hb).2)
      (fun x hx => (hctx x hx).elim fun t ht => ⟨t, ht.1, Or.inr ht.2.2⟩)
      (fun x hx => (hid x hx).elim fun t ht => ⟨t, ht.1, Or.inr ht.2.2⟩)
  exact ⟨ms, q, h1, h2, h3, h4, h5, h6,
    raw_presence r.Params q.Params (fun h => (hP "" h).1 rfl) h7,
    iface_presence marshal unmarshal r.Context q.Context hctx h8 h9,
    iface_presence marshal unmarshal r.ID q.ID hid h10 h11⟩

/-- Round trip of an MCPResponse whose Data is not empty and whose context and
identifier, when present, are not encoded as `null`: encoding and decoding succeed and keep
JSONRPC, Status and the presence of Data, Error, context and identifier. -/
theorem MCPResponse_presence {α β ε : Type} (marshal : α → Except ε RawMessage)
    (compact : RawMessage → Except ε RawMessage) (unmarshal : RawMessage → Option β)
    (r : MCPResponse α)
    (hD : ∀ b, r.Data = some b → b ≠ "" ∧ ∃ c, compact b = .ok c)
    (herr : ∀ x b, r.Error = some x → x.Data = some b → b ≠ "" → ∃ c, compact b = .ok c)
    (hctx : ∀ v, r.Context = some v →
      ∃ t, marshal v = .ok t ∧ t ≠ "null" ∧ ∃ b, unmarshal t = some b)
    (hid : ∀ v, r.ID = some v →
      ∃ t, marshal v = .ok t ∧ t ≠ "null" ∧ ∃ b, unmarshal t = some b) :
    ∃ ms q, r.encode marshal compact = .ok ms ∧ MCPResponse.decode unmarshal ms = some q ∧
      q.JSONRPC = r.JSONRPC ∧ q.Status = r.Status ∧
      (q.Data = none ↔ r.Data = none) ∧ (q.Error = none ↔ r.Error = none) ∧
      (q.Context = none ↔ r.Context = none) ∧ (q.ID = none ↔ r.ID = none) := by
  obtain ⟨ms, q, h1, h2, h3, h4, h5, h6, h7, h8, h9, h10⟩ :=
    MCPResponse_roundtrip marshal compact unmarshal r (fun b hb _ => (hD b hb).2) herr
      (fun x hx => (hctx x hx).elim fun t ht => ⟨t, ht.1, Or.inr ht.2.2⟩)
      (fun x hx => (hid x hx).elim fun t ht => ⟨t, ht.1, Or.inr ht.2.2⟩)
  exact ⟨ms, q, h1, h2, h3, h4,
    raw_presence r.Data q.Data (fun h => (hD "" h).1 rfl) h5, h6,
    iface_presence marshal unmarshal r.Context q.Context hctx h7 h8,
    iface_presence marshal unmarshal r.ID q.ID hid h9 h10⟩

/-- The fields of a Request returned by NewRequest, in terms of the arguments. -/
theorem NewRequest_fields {α ε : Type} (marshal : α → Except ε RawMessage)
    (method : String) (params id : Option α) (r : Request α)
    (h : NewRequest marshal method params id = .ok r) :
    r.ID = id ∧ ∀ b, r.Params = some b → ∃ v, params = some v ∧ marshal v = .ok b := by
  rcases (NewRequest_ok_inv marshal method params id r h).2 with
    ⟨_, hr⟩ | ⟨v, data, hp, hd, hr⟩
  · subst hr
    exact ⟨rfl, fun b hb => by cases hb⟩
  · subst hr
    exact ⟨rfl, fun b hb => by cases hb; exact ⟨v, hp, hd⟩⟩

/-- The fields of a Response returned by NewResponse, in terms of the arguments. -/
theorem NewResponse_fields {α ε : Type} (marshal : α → Except ε RawMessage)
    (result id : Option α) (r : Response α) (h : NewResponse marshal result id = .ok r) :
    r.ID = id ∧ r.Error = none ∧
      ∀ b, r.Result = some b → ∃ v, result = some v ∧ marshal v = .ok b := by
  cases result with
  | none =>
    simp only [NewResponse, Except.ok.injEq] at h
    subst h
    exact ⟨rfl, rfl, fun b hb => by cases hb⟩
  | some v =>
    cases hd : marshal v with
    | error err => simp [NewResponse, hd] at h
    | ok data =>
      simp only [NewResponse, hd, Except.ok.injEq] at h
      subst h
      exact ⟨rfl, rfl, fun b hb => by cases hb; exact ⟨v, rfl, hd⟩⟩

/-- The fields of an MCPRequest returned by NewMCPRequest, in terms of the arguments. -/
theorem NewMCPRequest_fields {α ε : Type} (marshal : α → Except ε RawMessage)
    (action : MCPAction) (params context : Option α) (tool : String) (id : Option α)
    (r : MCPRequest α) (h : NewMCPRequest marshal action params context tool id = .ok r) :
    r.Context = context ∧ r.ID = id ∧
      ∀ b, r.Params = some b → ∃ v, params = some v ∧ marshal v = .ok b := by
  rcases NewMCPRequest_ok_inv marshal action params context tool id r h with
    ⟨_, hr⟩ | ⟨v, data, hp, hd, hr⟩
  · subst hr
    exact ⟨rfl, rfl, fun b hb => by cases hb⟩
  · subst hr
    exact ⟨rfl, rfl, fun b hb => by cases hb; exact ⟨v, hp, hd⟩⟩

/-- The fields of an MCPResponse returned by NewMCPResponse, in terms of the arguments. -/
theorem NewMCPResponse_fields {α ε : Type} (marshal : α → Except ε RawMessage)
    (status : MCPStatus) (data context id : Option α) (r : MCPResponse α)
    (h : NewMCPResponse marshal status data context id = .ok r) :
    r.Context = context ∧ r.ID = id ∧ r.Error = none ∧
      ∀ b, r.Data = some b → ∃ v, data = some v ∧ marshal v = .ok b := by
  cases data with
  | none =>
    simp only [NewMCPResponse, Except.ok.injEq] at h
    subst h
    exact ⟨rfl, rfl, rfl, fun b hb => by cases hb⟩
  | some v =>
    cases hd : marshal v with
    | error err => simp [NewMCPResponse, hd] at h
    | ok bytes =>
      simp only [NewMCPResponse, hd, Except.ok.injEq] at h
      subst h
      exact ⟨rfl, rfl, rfl, fun b hb => by cases hb; exact ⟨v, rfl, hd⟩⟩

/-- C22 at concrete inputs: the request "execute" with params, context, tool "calc" and
identifier 9 encodes with all seven keys, and with the empty tool string and no context the
keys "tool" and "context" are left out. -/
theorem MCPRequest_encode_keys_witness :
    (∃ r, NewMCPRequest Dyn.marshal "execute" (some (Dyn.ints [1])) (some (Dyn.int 2)) "calc"
        (some (Dyn.int 9)) = .ok r ∧
      ∃ ms, r.encode Dyn.marshal Dyn.compact = .ok ms ∧
        ms.map Prod.fst = ["jsonrpc", "method", "action", "params", "context", "tool", "id"] ∧
        ("method", JValue.string "execute") ∈ ms ∧ ("action", JValue.string "execute") ∈ ms) ∧
    (∃ r, NewMCPRequest Dyn.marshal "execute" (some (Dyn.ints [1])) none ""
        (some (Dyn.int 9)) = .ok r ∧
      ∃ ms, r.encode Dyn.marshal Dyn.compact = .ok ms ∧
        ms.map Prod.fst = ["jsonrpc", "method", "action", "params", "id"] ∧
        "tool" ∉ ms.map Prod.fst) :=
  have h1 := MCPRequest_encode_keys Dyn.marshal Dyn.compact "execute" (some (Dyn.ints [1]))
    (some (Dyn.int 2)) "calc" (some (Dyn.int 9)) _ rfl
    (fun v data hv hd => by cases hv; cases hd; decide)
  have h2 := MCPRequest_encode_keys Dyn.marshal Dyn.compact "execute" (some (Dyn.ints [1]))
    none "" (some (Dyn.int 9)) _ rfl
    (fun v data hv hd => by cases hv; cases hd; decide)
  ⟨⟨_, rfl, _, rfl, rfl, (h1.1 _ rfl).2.1, (h1.1 _ rfl).2.2.1⟩,
    ⟨_, rfl, _, rfl, rfl, fun hc => ((h2.1 _ rfl).2.2.2.1.1 hc) rfl⟩⟩

/-- C23 fails as stated: a Request built with a nil pointer as identifier is not a
notification, its identifier is encoded as `null`, and the decoded Request has no identifier
and is a notification. -/
theorem roundtrip_null_identifier :
    ∃ r ms q, NewRequest Dyn.marshal "sum" none (some Dyn.nilptr) = .ok r ∧
      r.encode Dyn.marshal Dyn.compact = .ok ms ∧
      Request.decode Dyn.unmarshal ms = some q ∧
      r.ID ≠ none ∧ q.ID = none ∧ r.IsNotification = false ∧ q.IsNotification = true :=
  ⟨_, _, _, rfl, rfl, rfl, by simp, rfl, rfl, rfl⟩

/-- C23 as amended: for the messages produced by the six constructors whose method, action,
status and tool are valid UTF-8 text (the strings of this embedding, which are all the
valid ones), whose Error, if any, carries Data that is nil, empty or accepted by the JSON
encoder (`herr`), and whose identifier and context, when present, are serialisable, are not
encoded as `null` and can be decoded again (`hid`, `hctx`), encoding to JSON and decoding
into the same type succeed and keep JSONRPC, Method, Action, Status, Tool and the presence or
absence of params, result, data, error, context and identifier; the decoded Request is a
notification if and only if the original was. The hypothesis `hpay` is a fact of
`json.Marshal`: the text it returns for the payload is not empty and is accepted by the
encoder. A string that is not valid UTF-8 is outside this statement: `encoding/json` writes
the replacement character for its invalid bytes, so it is not kept. -/
theorem roundtrip_preserves {α β ε : Type} (marshal : α → Except ε RawMessage)
    (compact : RawMessage → Except ε RawMessage) (unmarshal : RawMessage → Option β)
    (method : String) (action : MCPAction) (status : MCPStatus) (tool : String)
    (payload context id : Option α) (e : Option Error)
    (req : Request α) (resp : Response α) (mreq : MCPRequest α) (mresp : MCPResponse α)
    (hreq : NewRequest marshal method payload id = .ok req)
    (hresp : NewResponse marshal payload id = .ok resp)
    (hmreq : NewMCPRequest marshal action payload context tool id = .ok mreq)
    (hmresp : NewMCPResponse marshal status payload context id = .ok mresp)
    (hpay : ∀ v data, payload = some v → marshal v = .ok data →
      data ≠ "" ∧ ∃ c, compact data = .ok c)
    (herr : ∀ x b, e = some x → x.Data = some b → b ≠ "" → ∃ c, compact b = .ok c)
    (hctx : ∀ v, context = some v →
      ∃ t, marshal v = .ok t ∧ t ≠ "null" ∧ ∃ b, unmarshal t = some b)
    (hid : ∀ v, id = some v →
      ∃ t, marshal v = .ok t ∧ t ≠ "null" ∧ ∃ b, unmarshal t = some b) :
    (∃ ms q, req.encode marshal compact = .ok ms ∧ Request.decode unmarshal ms = some q ∧
      q.JSONRPC = req.JSONRPC ∧ q.Method = req.Method ∧
      (q.Params = none ↔ req.Params = none) ∧ (q.ID = none ↔ req.ID = none) ∧
      q.IsNotification = req.IsNotification) ∧
    (∃ ms q, resp.encode marshal compact = .ok ms ∧ Response.decode unmarshal ms = some q ∧
      q.JSONRPC = resp.JSONRPC ∧ (q.Result = none ↔ resp.Result = none) ∧
      (q.Error = none ↔ resp.Error = none) ∧ (q.ID = none ↔ resp.ID = none)) ∧
    (∃ ms q, (NewErrorResponse e id).encode marshal compact = .ok ms ∧
      Response.decode unmarshal ms = some q ∧
      q.JSONRPC = (NewErrorResponse e id).JSONRPC ∧
      (q.Result = none ↔ (NewErrorResponse e id).Result = none) ∧
      (q.Error = none ↔ (NewErrorResponse e id).Error = none) ∧
      (q.ID = none ↔ (NewErrorResponse e id).ID = none)) ∧
    (∃ ms q, mreq.encode marshal compact = .ok ms ∧
      MCPRequest.decode unmarshal ms = some q ∧
      q.JSONRPC = mreq.JSONRPC ∧ q.Method = mreq.Method ∧ q.Action = mreq.Action ∧
      q.Tool = mreq.Tool ∧ (q.Params = none ↔ mreq.Params = none) ∧
      (q.Context = none ↔ mreq.Context = none) ∧ (q.ID = none ↔ mreq.ID = none)) ∧
    (∃ ms q, mresp.encode marshal compact = .ok ms ∧
      MCPResponse.decode unmarshal ms = some q ∧
      q.JSONRPC = mresp.JSONRPC ∧ q.Status = mresp.Status ∧
      (q.Data = none ↔ mresp.Data = none) ∧ (q.Error = none ↔ mresp.Error = none) ∧
      (q.Context = none ↔ mresp.Context = none) ∧ (q.ID = none ↔ mresp.ID = none)) ∧
    (∃ ms q, (NewMCPErrorResponse e context id).encode marshal compact = .ok ms ∧
      MCPResponse.decode unmarshal ms = some q ∧
      q.JSONRPC = (NewMCPErrorResponse e context id).JSONRPC ∧
      q.Status = (NewMCPErrorResponse e context id).Status ∧
      (q.Data = none ↔ (NewMCPErrorResponse e context id).Data = none) ∧
      (q.Error = none ↔ (NewMCPErrorResponse e context id).Error = none) ∧
      (q.Context = none ↔ (NewMCPErrorResponse e context id).Context = none) ∧
      (q.ID = none ↔ (NewMCPErrorResponse e context id).ID = none)) := by
  obtain ⟨a1, a2⟩ := NewRequest_fields marshal method payload id req hreq
  obtain ⟨b1, b2, b3⟩ := NewResponse_fields marshal payload id resp hresp
  obtain ⟨c1, c2, c3⟩ := NewMCPRequest_fields marshal action payload context tool id mreq hmreq
  obtain ⟨d1, d2, d3, d4⟩ :=
    NewMCPResponse_fields marshal status payload context id mresp hmresp
  refine ⟨?_, ?_, ?_, ?_, ?_, ?_⟩
  · exact Request_presence marshal compact unmarshal req
      (fun b hb => (a2 b hb).elim fun v hv => hpay v b hv.1 hv.2) (by rw [a1]; exact hid)
  · exact Response_presence marshal compact unmarshal resp
      (fun b hb => (b3 b hb).elim fun v hv => hpay v b hv.1 hv.2)
      (fun x b hx => by rw [b2] at hx; cases hx) (by rw [b1]; exact hid)
  · exact Response_presence marshal compact unmarshal (NewErrorResponse e id)
      (fun b hb => by cases hb) herr hid
  · exact MCPRequest_presence marshal compact unmarshal mreq
      (fun b hb => (c3 b hb).elim fun v hv => hpay v b hv.1 hv.2)
      (by rw [c1]; exact hctx) (by rw [c2]; exact hid)
  · exact MCPResponse_presence marshal compact unmarshal mresp
      (fun b hb => (d4 b hb).elim fun v hv => hpay v b hv.1 hv.2)
      (fun x b hx => by rw [d3] at hx; cases hx) (by rw [d1]; exact hctx)
      (by rw [d2]; exact hid)
  · exact MCPResponse_presence marshal compact unmarshal (NewMCPErrorResponse e context id)
      (fun b hb => by cases hb) herr hctx hid

/-- C23 as amended, at concrete inputs: the request "sum" with params [1,2] and identifier
7 is encoded and decoded with its method and the presence of its identifier kept. -/
theorem roundtrip_preserves_witness :
    ∃ r ms q, NewRequest Dyn.marshal "sum" (some (Dyn.ints [1, 2])) (some (Dyn.int 7)) = .ok r ∧
      r.encode Dyn.marshal Dyn.compact = .ok ms ∧
      Request.decode Dyn.unmarshal ms = some q ∧
      q.JSONRPC = "2.0" ∧ q.Method = "sum" ∧ q.ID ≠ none ∧ q.IsNotification = false := by
  obtain ⟨ms, q, h1, h2, h3, h4, _, h6, h7⟩ :=
    (roundtrip_preserves Dyn.marshal Dyn.compact Dyn.unmarshal "sum" "execute" "success" "calc"
      (some (Dyn.ints [1, 2])) (some (Dyn.int 2)) (some (Dyn.int 7)) (some (StdError ErrParse))
      _ _ _ _ rfl rfl rfl rfl
      (fun v data hv hd => by cases hv; cases hd; exact ⟨by decide, _, rfl⟩)
      (fun x b hx hb => by cases hx; cases hb)
      (fun v hv => by cases hv; exact ⟨"2", rfl, by decide, _, rfl⟩)
      (fun v hv => by cases hv; exact ⟨"7", rfl, by decide, _, rfl⟩)).1
  exact ⟨_, ms, q, rfl, h1, h2, h3, h4, fun hq => by simpa using h6.1 hq, h7⟩

/-- C24 fails as stated: the identifier 9223372036854775807 is written in full, and the
decoder stores the nearest float64, whose value is 9223372036854775808. -/
theorem roundtrip_large_identifier :
    ∃ r ms q,
      NewRequest Dyn.marshal "sum" none (some (Dyn.int 9223372036854775807)) = .ok r ∧
      r.encode Dyn.marshal Dyn.compact = .ok ms ∧
      ("id", JValue.raw "9223372036854775807") ∈ ms ∧
      Request.decode Dyn.unmarshal ms = some q ∧
      q.ID = some (Decoded.float64 9223372036854775808) ∧
      (9223372036854775808 : Int) ≠ 9223372036854775807 :=
  ⟨_, _, _, rfl, rfl, (by simp; rfl), rfl, rfl, by decide⟩

/-- C24 as amended: for an integer identifier n of absolute value at most 2^53, written by
`json.Marshal` as the text t and read by `json.Unmarshal` as the float64 nearest to n, the
message built by NewRequest, NewResponse, NewMCPRequest or NewMCPResponse is encoded and
decoded with an identifier that is the float64 of value n. -/
theorem integer_identifier_roundtrip {α β ε : Type} (marshal : α → Except ε RawMessage)
    (compact : RawMessage → Except ε RawMessage) (unmarshal : RawMessage → Option β)
    (float : Int → β) (n : Int) (idv : α) (t : RawMessage)
    (method : String) (action : MCPAction) (status : MCPStatus) (tool : String)
    (payload context : Option α)
    (req : Request α) (resp : Response α) (mreq : MCPRequest α) (mresp : MCPResponse α)
    (hreq : NewRequest marshal method payload (some idv) = .ok req)
    (hresp : NewResponse marshal payload (some idv) = .ok resp)
    (hmreq : NewMCPRequest marshal action payload context tool (some idv) = .ok mreq)
    (hmresp : NewMCPResponse marshal status payload context (some idv) = .ok mresp)
    (hlo : -(2 ^ 53) ≤ n) (hhi : n ≤ 2 ^ 53)
    (hm : marshal idv = .ok t) (ht : t ≠ "null")
    (hu : unmarshal t = some (float (float64OfInt n)))
    (hpay : ∀ v data, payload = some v → marshal v = .ok data → ∃ c, compact data = .ok c)
    (hctx : ∀ v, context = some v →
      ∃ u, marshal v = .ok u ∧ (u = "null" ∨ ∃ b, unmarshal u = some b)) :
    (∃ ms q, req.encode marshal compact = .ok ms ∧ Request.decode unmarshal ms = some q ∧
      q.ID = some (float n)) ∧
    (∃ ms q, resp.encode marshal compact = .ok ms ∧ Response.decode unmarshal ms = some q ∧
      q.ID = some (float n)) ∧
    (∃ ms q, mreq.encode marshal compact = .ok ms ∧
      MCPRequest.decode unmarshal ms = some q ∧ q.ID = some (float n)) ∧
    (∃ ms q, mresp.encode marshal compact = .ok ms ∧
      MCPResponse.decode unmarshal ms = some q ∧ q.ID = some (float n)) := by
  obtain ⟨a1, a2⟩ := NewRequest_fields marshal method payload (some idv) req hreq
  obtain ⟨b1, b2, b3⟩ := NewResponse_fields marshal payload (some idv) resp hresp
  obtain ⟨c1, c2, c3⟩ :=
    NewMCPRequest_fields marshal action payload context tool (some idv) mreq hmreq
  obtain ⟨d1, d2, d3, d4⟩ :=
    NewMCPResponse_fields marshal status payload context (some idv) mresp hmresp
  have hid : ∀ v, some idv = some v →
      ∃ u, marshal v = .ok u ∧ (u = "null" ∨ ∃ b, unmarshal u = some b) := by
    intro v hv
    cases hv
    exact ⟨t, hm, Or.inr ⟨_, hu⟩⟩
  have hval : (if t = "null" then none else unmarshal t) = some (float n) := by
    rw [if_neg ht, hu, float64OfInt_exact n hlo hhi]
  refine ⟨?_, ?_, ?_, ?_⟩
  · obtain ⟨ms, q, h1, h2, _, _, _, _, h7⟩ := Request_roundtrip marshal compact unmarshal req
      (fun b hb _ => (a2 b hb).elim fun v hv => hpay v b hv.1 hv.2) (by rw [a1]; exact hid)
    exact ⟨ms, q, h1, h2, (h7 idv t a1 hm).trans hval⟩
  · obtain ⟨ms, q, h1, h2, _, _, _, _, h7⟩ := Response_roundtrip marshal compact unmarshal resp
      (fun b hb _ => (b3 b hb).elim fun v hv => hpay v b hv.1 hv.2)
      (fun x b hx => by rw [b2] at hx; cases hx) (by rw [b1]; exact hid)
    exact ⟨ms, q, h1, h2, (h7 idv t b1 hm).trans hval⟩
  · obtain ⟨ms, q, h1, h2, _, _, _, _, _, _, _, _, h11⟩ :=
      MCPRequest_roundtrip marshal compact unmarshal mreq
        (fun b hb _ => (c3 b hb).elim fun v hv => hpay v b hv.1 hv.2)
        (by rw [c1]; exact hctx) (by rw [c2]; exact hid)
    exact ⟨ms, q, h1, h2, (h11 idv t c2 hm).trans hval⟩
  · obtain ⟨ms, q, h1, h2, _, _, _, _, _, _, _, h10⟩ :=
      MCPResponse_roundtrip marshal compact unmarshal mresp
        (fun b hb _ => (d4 b hb).elim fun v hv => hpay v b hv.1 hv.2)
        (fun x b hx => by rw [d3] at hx; cases hx) (by rw [d1]; exact hctx)
        (by rw [d2]; exact hid)
    exact ⟨ms, q, h1, h2, (h10 idv t d2 hm).trans hval⟩

/-- C24 as amended, at concrete inputs: the identifier 9007199254740992, which is 2^53, is
decoded as the float64 of the same value. -/
theorem integer_identifier_roundtrip_witness :
    ∃ r ms q,
      NewRequest Dyn.marshal "sum" none (some (Dyn.int 9007199254740992)) = .ok r ∧
      r.encode Dyn.marshal Dyn.compact = .ok ms ∧
      Request.decode Dyn.unmarshal ms = some q ∧
      q.ID = some (Decoded.float64 9007199254740992) := by
  obtain ⟨ms, q, h1, h2, h3⟩ :=
    (integer_identifier_roundtrip Dyn.marshal Dyn.compact Dyn.unmarshal Decoded.float64
      9007199254740992 (Dyn.int 9007199254740992) "9007199254740992"
      "sum" "execute" "success" "calc" none none _ _ _ _ rfl rfl rfl rfl
      (by decide) (by decide) rfl (by decide) rfl
      (fun v data hv _ => by cases hv) (fun v hv => by cases hv)).1
  exact ⟨_, ms, q, rfl, h1, h2, h3⟩

end Mcpkit
